import Mathlib

/-! # go-winrm: encoding utilities and run-command helpers

A shallow embedding of `util.go` (package `winrm`) and of the demo entry point
`test/main.go`, with the properties stated about them.

Conventions of the embedding.

* A Go `string` that is valid text is a Lean `String` (a sequence of Unicode scalar
  values); `for _, rune := range v` visits `v.data` from left to right.
* Where the source inspects a rune as a number (`FormatPowerShellScriptCommandLine`),
  the loop is modelled on the sequence of runes that `range` yields, each a natural
  number; `rangeRunes` gives that sequence for the bytes of a Go string.
* `strings.Builder` and `bytes.Buffer` are lists that grow at the end.
* A Go `panic` is `Except.error` carrying the panic message.
* Calls on a remote shell are recorded in a trace of events, in the order made.
-/

namespace Winrm

/-! ## Characters named by the source -/

/-- The backtick, U+0060, PowerShell's escape character. -/
def backtick : Char := Char.ofNat 96

/-- The single quote, U+0027. -/
def singleQuote : Char := Char.ofNat 39

/-- The double quote, U+0022. -/
def doubleQuote : Char := Char.ofNat 34

/-- Go's `\a`, U+0007. -/
def bell : Char := Char.ofNat 7

/-- Go's `\b`, U+0008. -/
def backspace : Char := Char.ofNat 8

/-- Go's `\f`, U+000C. -/
def formFeed : Char := Char.ofNat 12

/-- Go's `\v`, U+000B. -/
def verticalTab : Char := Char.ofNat 11

/-- Go's `\x00`, U+0000. -/
def nul : Char := Char.ofNat 0

/-! ## `PowerShellSingleQuotedStringLiteral` (util.go, lines 16-52) -/

/-- The `switch rune` of the loop body: `some esc` for the eleven cases that assign
`esc`, `none` for the `default` branch. The cases are tried in source order. -/
def escapeOf (r : Char) : Option (List Char) :=
  if r = '\n' then some [backtick, 'n']
  else if r = '\r' then some [backtick, 'r']
  else if r = '\t' then some [backtick, 't']
  else if r = bell then some [backtick, 'a']
  else if r = backspace then some [backtick, 'b']
  else if r = formFeed then some [backtick, 'f']
  else if r = verticalTab then some [backtick, 'v']
  else if r = doubleQuote then some [backtick, doubleQuote]
  else if r = singleQuote then some [backtick, singleQuote]
  else if r = backtick then some [backtick, backtick]
  else if r = nul then some [backtick, '0']
  else none

/-- One iteration of the loop over the runes of `v`, on the builder `sb`: the
`default` branch writes the rune and continues, every other branch falls through to
`sb.WriteString(esc)`. -/
def quoteStep (sb : List Char) (r : Char) : List Char :=
  match escapeOf r with
  | none => sb ++ [r]
  | some esc => sb ++ esc

/-- The function `PowerShellSingleQuotedStringLiteral`: write a single quote, run the
loop over the runes of `v`, write a single quote, return the builder's content. -/
def PowerShellSingleQuotedStringLiteral (v : String) : String :=
  let sb : List Char := [] ++ [singleQuote]
  let sb := v.data.foldl quoteStep sb
  let sb := sb ++ [singleQuote]
  String.mk sb

/-! ### The backtick-escape reading of a quoted text -/

/-- What the character after a backtick denotes under the backtick-escape convention:
`n r t a b f v 0` denote the control characters, a double quote, a single quote and a
backtick denote themselves. No other escape is given a meaning here. -/
def escapeMeaning (c : Char) : Option Char :=
  if c = 'n' then some '\n'
  else if c = 'r' then some '\r'
  else if c = 't' then some '\t'
  else if c = 'a' then some bell
  else if c = 'b' then some backspace
  else if c = 'f' then some formFeed
  else if c = 'v' then some verticalTab
  else if c = '0' then some nul
  else if c = doubleQuote then some doubleQuote
  else if c = singleQuote then some singleQuote
  else if c = backtick then some backtick
  else none

/-- Read a text from left to right under the backtick-escape convention: a backtick
and the character after it denote `escapeMeaning` of that character, every other
character denotes itself. A backtick at the very end, or before a character without
a listed meaning, has no reading. -/
def readBacktickEscaped : List Char → Option (List Char)
  | [] => some []
  | [c] => if c = backtick then none else some [c]
  | c :: d :: rest =>
    if c = backtick then
      match escapeMeaning d with
      | some x => (readBacktickEscaped rest).map (fun t => x :: t)
      | none => none
    else (readBacktickEscaped (d :: rest)).map (fun t => c :: t)

/-- Remove the opening and the closing single quote of a literal; `none` when the
text does not start and end with a single quote (two distinct characters). -/
def stripOuterQuotes : List Char → Option (List Char)
  | [] => none
  | c :: t =>
    if c = singleQuote ∧ t.getLast? = some singleQuote then some t.dropLast else none

/-- The characters the loop writes for one rune. -/
def writtenFor (r : Char) : List Char :=
  match escapeOf r with
  | none => [r]
  | some esc => esc

/-! ### The verbatim reading of a PowerShell single-quoted literal -/

/-- Read the text between the quotes of a single-quoted literal verbatim: every
character is taken literally, the backtick included, and only two single quotes in a
row stand for one single quote. A single quote that is not doubled has no reading. -/
def readVerbatim : List Char → Option (List Char)
  | [] => some []
  | [c] => if c = singleQuote then none else some [c]
  | c :: d :: rest =>
    if c = singleQuote then
      if d = singleQuote then (readVerbatim rest).map (fun t => singleQuote :: t)
      else none
    else (readVerbatim (d :: rest)).map (fun t => c :: t)

/-- The value of a text as a PowerShell single-quoted string literal: it starts and
ends with a single quote and the text between is read verbatim; `none` when the text
is not such a literal. -/
def evalSingleQuotedLiteral (l : List Char) : Option (List Char) :=
  (stripOuterQuotes l).bind readVerbatim

/-! ### Tokens of a quoted text -/

/-- A token of the text between the quotes: a backtick followed by exactly one
character, or a single character that is not a backtick. -/
inductive Token where
  | escaped (c : Char)
  | plain (c : Char)
  deriving DecidableEq, Repr

/-- Split a text completely, from left to right, into tokens. A backtick with no
character after it (a dangling backtick) cannot be split. -/
def tokenize : List Char → Option (List Token)
  | [] => some []
  | [c] => if c = backtick then none else some [Token.plain c]
  | c :: d :: rest =>
    if c = backtick then (tokenize rest).map (fun t => Token.escaped d :: t)
    else (tokenize (d :: rest)).map (fun t => Token.plain c :: t)

/-- The escaped control characters: newline, carriage return, tab, bell, backspace,
form feed, vertical tab, NUL. -/
def escapedControls : List Char :=
  ['\n', '\r', '\t', bell, backspace, formFeed, verticalTab, nul]

/-- The token the loop writes for one rune. -/
def tokenFor (r : Char) : Token :=
  match escapeOf r with
  | none => Token.plain r
  | some esc => Token.escaped (esc.getD 1 r)

/-! ## `FormatPowerShellScriptCommandLine` (util.go, lines 57-80) -/

/-- Go's `unicode.MaxRune`, U+10FFFF. -/
def maxRune : Nat := 0x10FFFF

/-- Go's `unicode.ReplacementChar`, U+FFFD. -/
def replacementChar : Nat := 0xFFFD

/-- The constant `surrSelf` of Go's `unicode/utf16`: the first code point that needs a
surrogate pair. -/
def surrSelf : Nat := 0x10000

/-- The constant `surr1` of Go's `unicode/utf16`: the first high surrogate. -/
def surr1 : Nat := 0xD800

/-- The constant `surr2` of Go's `unicode/utf16`: the first low surrogate. -/
def surr2 : Nat := 0xDC00

/-- The function `utf16.EncodeRune` of Go's standard library, on a non-negative rune:
the replacement character twice when the rune needs no pair or is no code point, else
the surrogate pair. `r >> 10` is `r / 1024` and `& 0x3ff` is `% 1024`. -/
def utf16EncodeRune (r : Nat) : Nat × Nat :=
  if r < surrSelf ∨ r > maxRune then (replacementChar, replacementChar)
  else
    let r := r - surrSelf
    (surr1 + (r / 1024) % 1024, surr2 + r % 1024)

/-- The call `binary.LittleEndian.PutUint16(b, v)`: the low byte, then the high byte. -/
def putUint16LE (v : Nat) : List Nat := [v % 256, (v / 256) % 256]

/-- The conversion `uint16(x)`. -/
def toUint16 (x : Nat) : Nat := x % 65536

/-- The message of the `panic` in the loop. -/
def invalidScriptMessage : String := "script is not valid UTF-8"

/-- One iteration of the loop over the runes of `script`, on the buffer
`scriptUTF16LE`. -/
def encodeStep (scriptUTF16LE : List Nat) (rune : Nat) : Except String (List Nat) :=
  let (r1, r2) := utf16EncodeRune rune
  if r2 = replacementChar then
    if rune > maxRune then Except.error invalidScriptMessage
    else Except.ok (scriptUTF16LE ++ putUint16LE (toUint16 rune))
  else
    Except.ok (scriptUTF16LE ++ (putUint16LE (toUint16 r1) ++ putUint16LE (toUint16 r2)))

/-- The loop of `FormatPowerShellScriptCommandLine`: the bytes of `scriptUTF16LE` once
every rune has been written, or the panic of the first rune that is rejected. -/
def encodeLoop (script : List Nat) : Except String (List Nat) :=
  script.foldlM encodeStep []

/-- The alphabet of `base64.StdEncoding`. -/
def base64Alphabet : List Char :=
  "ABCDEFGHIJKLMNOPQRSTUVWXYZabcdefghijklmnopqrstuvwxyz0123456789+/".data

/-- The character `encode[i]` of the standard alphabet. -/
def base64Char (i : Nat) : Char := base64Alphabet.getD i '='

/-- The function `base64.StdEncoding.EncodeToString` of Go's standard library: each
group of three bytes becomes the four characters of the 24-bit value
`a<<16 | b<<8 | c`, six bits at a time; a last group of one or two bytes is padded with
`=` to four characters. -/
def base64StdEncode : List Nat → List Char
  | [] => []
  | [a] =>
    let val := a * 65536
    [base64Char (val / 262144 % 64), base64Char (val / 4096 % 64), '=', '=']
  | [a, b] =>
    let val := a * 65536 + b * 256
    [base64Char (val / 262144 % 64), base64Char (val / 4096 % 64),
      base64Char (val / 64 % 64), '=']
  | a :: b :: c :: rest =>
    let val := a * 65536 + b * 256 + c
    base64Char (val / 262144 % 64) :: base64Char (val / 4096 % 64) ::
      base64Char (val / 64 % 64) :: base64Char (val % 64) :: base64StdEncode rest

/-- The body of `FormatPowerShellScriptCommandLine` on the runes that `range` yields
for `script`: the command and its arguments, or the panic of the loop. The function on
a Go string is `FormatPowerShellScriptCommandLineString`. -/
def FormatPowerShellScriptCommandLine (script : List Nat) : Except String (List String) :=
  match encodeLoop script with
  | Except.error msg => Except.error msg
  | Except.ok scriptUTF16LE =>
    let scriptEncoded := String.mk (base64StdEncode scriptUTF16LE)
    Except.ok ["PowerShell", "-NoProfile", "-NonInteractive", "-ExecutionPolicy",
      "Unrestricted", "-EncodedCommand", scriptEncoded]

/-! ### Decoding a payload: base64, then UTF-16 little-endian -/

/-- A Unicode scalar value: a code point up to U+10FFFF that is not a surrogate. -/
def isScalarValue (c : Nat) : Prop := c < 0xD800 ∨ (0xE000 ≤ c ∧ c ≤ 0x10FFFF)

instance (c : Nat) : Decidable (isScalarValue c) := by
  unfold isScalarValue
  infer_instance

/-- The six-bit value of a character of the standard alphabet. -/
def base64Value (c : Char) : Option Nat :=
  let i := base64Alphabet.indexOf c
  if i < 64 then some i else none

/-- Standard base64 decoding with padding: four characters give three bytes; a last
group ending in `=` gives two bytes, one ending in `==` gives one byte. Anything else
does not decode. -/
def base64StdDecode : List Char → Option (List Nat)
  | [] => some []
  | c0 :: c1 :: c2 :: c3 :: rest =>
    if c3 = '=' then
      match rest with
      | _ :: _ => none
      | [] =>
        if c2 = '=' then
          match base64Value c0, base64Value c1 with
          | some v0, some v1 =>
            let val := v0 * 262144 + v1 * 4096
            some [val / 65536 % 256]
          | _, _ => none
        else
          match base64Value c0, base64Value c1, base64Value c2 with
          | some v0, some v1, some v2 =>
            let val := v0 * 262144 + v1 * 4096 + v2 * 64
            some [val / 65536 % 256, val / 256 % 256]
          | _, _, _ => none
    else
      match base64Value c0, base64Value c1, base64Value c2, base64Value c3,
          base64StdDecode rest with
      | some v0, some v1, some v2, some v3, some t =>
        let val := v0 * 262144 + v1 * 4096 + v2 * 64 + v3
        some (val / 65536 % 256 :: val / 256 % 256 :: val % 256 :: t)
      | _, _, _, _, _ => none
  | _ => none

/-- The 16-bit code units of a little-endian byte sequence; an odd number of bytes
has none. -/
def utf16UnitsLE : List Nat → Option (List Nat)
  | [] => some []
  | [_] => none
  | lo :: hi :: rest => (utf16UnitsLE rest).map (fun t => (lo + 256 * hi) :: t)

/-- UTF-16 decoding of code units: a unit outside the surrogate range is its own code
point, a high surrogate followed by a low surrogate is the code point of the pair, and
a surrogate that is not part of such a pair does not decode. -/
def utf16DecodeUnits : List Nat → Option (List Nat)
  | [] => some []
  | [u] => if u < 0xD800 ∨ 0xE000 ≤ u then some [u] else none
  | u :: l :: rest =>
    if u < 0xD800 ∨ 0xE000 ≤ u then (utf16DecodeUnits (l :: rest)).map (fun t => u :: t)
    else if u < 0xDC00 ∧ 0xDC00 ≤ l ∧ l < 0xE000 then
      (utf16DecodeUnits rest).map
        (fun t => (0x10000 + (u - 0xD800) * 1024 + (l - 0xDC00)) :: t)
    else none

/-- Decode bytes as UTF-16 little-endian text. -/
def utf16LEDecode (bytes : List Nat) : Option (List Nat) :=
  (utf16UnitsLE bytes).bind utf16DecodeUnits

/-- Base64-decode the last element of a command line and decode the bytes as UTF-16
little-endian. -/
def decodePayload (commandLine : List String) : Option (List Nat) :=
  (commandLine.getLast?.bind (fun s => base64StdDecode s.data)).bind utf16LEDecode

/-- The UTF-16 code units of one code point, as the encoding form defines them: one
unit below U+10000, else the high and the low surrogate of the pair. -/
def utf16UnitsOf (c : Nat) : List Nat :=
  if c < 0x10000 then [c]
  else [0xD800 + (c - 0x10000) / 1024, 0xDC00 + (c - 0x10000) % 1024]

/-- The UTF-16 little-endian bytes of a text: each code unit as its low byte followed
by its high byte. -/
def utf16LEBytes (script : List Nat) : List Nat :=
  (script.flatMap utf16UnitsOf).flatMap (fun u => [u % 256, u / 256])

/-! ### The runes of a Go string

A Go `string` is a sequence of bytes. The loop `for _, rune := range script` reads an
ASCII byte as its own rune and calls `decoderune` of the Go runtime at any other byte;
a byte sequence that is not well-formed UTF-8 yields the rune U+FFFD and is left by
one byte. -/

/-- The constant `runeError` of the Go runtime, U+FFFD. -/
def runeError : Nat := 0xFFFD

/-- The function `decoderune` of the Go runtime at a byte `b0` that is not ASCII,
followed by the bytes `rest`: the rune and the number of bytes it takes. The masks
`& 0x1F`, `& 0x0F`, `& 0x07` and `& 0x3F` are `% 32`, `% 16`, `% 8` and `% 64`, and the
shifted parts have no bit in common, so that `|` is `+`. -/
def decoderune (b0 : Nat) (rest : List Nat) : Nat × Nat :=
  if 0xC0 ≤ b0 ∧ b0 < 0xE0 then
    match rest with
    | b1 :: _ =>
      if 0x80 ≤ b1 ∧ b1 ≤ 0xBF then
        let r := b0 % 32 * 64 + b1 % 64
        if 0x7F < r then (r, 2) else (runeError, 1)
      else (runeError, 1)
    | _ => (runeError, 1)
  else if 0xE0 ≤ b0 ∧ b0 < 0xF0 then
    match rest with
    | b1 :: b2 :: _ =>
      if (0x80 ≤ b1 ∧ b1 ≤ 0xBF) ∧ (0x80 ≤ b2 ∧ b2 ≤ 0xBF) then
        let r := b0 % 16 * 4096 + b1 % 64 * 64 + b2 % 64
        if 0x7FF < r ∧ ¬ (0xD800 ≤ r ∧ r ≤ 0xDFFF) then (r, 3) else (runeError, 1)
      else (runeError, 1)
    | _ => (runeError, 1)
  else if 0xF0 ≤ b0 ∧ b0 < 0xF8 then
    match rest with
    | b1 :: b2 :: b3 :: _ =>
      if (0x80 ≤ b1 ∧ b1 ≤ 0xBF) ∧ (0x80 ≤ b2 ∧ b2 ≤ 0xBF) ∧ (0x80 ≤ b3 ∧ b3 ≤ 0xBF) then
        let r := b0 % 8 * 262144 + b1 % 64 * 4096 + b2 % 64 * 64 + b3 % 64
        if 0xFFFF < r ∧ r ≤ maxRune then (r, 4) else (runeError, 1)
      else (runeError, 1)
    | _ => (runeError, 1)
  else (runeError, 1)

/-- The runes that `range` yields from a position on, `skip` being the number of bytes
still to pass over because they belong to the rune read last. -/
def rangeFrom : Nat → List Nat → List Nat
  | _, [] => []
  | skip + 1, _ :: rest => rangeFrom skip rest
  | 0, b0 :: rest =>
    if b0 < 0x80 then b0 :: rangeFrom 0 rest
    else (decoderune b0 rest).1 :: rangeFrom ((decoderune b0 rest).2 - 1) rest

/-- The runes that `for _, rune := range script` yields for the bytes of `script`. -/
def rangeRunes (script : List Nat) : List Nat := rangeFrom 0 script

/-- The function `FormatPowerShellScriptCommandLine` on a Go string, given by its
bytes. -/
def FormatPowerShellScriptCommandLineString (script : List Nat) :
    Except String (List String) :=
  FormatPowerShellScriptCommandLine (rangeRunes script)

/-- The four-byte form of UTF-8, `11110xxx 10xxxxxx 10xxxxxx 10xxxxxx`, of a code point
from U+10000 on; it has room for code points up to 0x1FFFFF. -/
def utf8FourByteForm (c : Nat) : List Nat :=
  [0xF0 + c / 262144, 0x80 + c / 4096 % 64, 0x80 + c / 64 % 64, 0x80 + c % 64]

/-! ## Remote shells and commands

The types `Shell` and `Command` and their methods are not part of `util.go`; the
remote side is a parameter of the model. A world `σ` is threaded through the calls, so
that the result of a call may depend on everything done before, and every call is
recorded as an event. -/

/-- A non-nil `*Shell`. -/
abbrev ShellId := Nat

/-- A non-nil `*Command`. -/
abbrev CommandId := Nat

/-- A non-nil Go `error`, by its message. -/
abbrev GoError := String

/-- An `io.ReadWriter` handed to a command as output sink: one of the standard streams
of the process, or an in-memory buffer made by `bytes.NewBuffer`. -/
inductive Sink where
  | osStdout
  | osStderr
  | newBuffer (n : Nat)
  deriving DecidableEq, Repr

/-- The arguments of one `(*Shell).StartCommand` call. -/
structure StartArgs where
  command : String
  args : List String
  winrsConsoleModeStdin : Bool
  winrsSkipCmdShell : Bool
  stdout : Sink
  stderr : Sink
  deriving DecidableEq, Repr

/-- A call made on the remote side. `close` carries the index of the pool slot and the
handle found there (`none` for a nil handle). -/
inductive Event where
  | createShell
  | close (index : Nat) (shell : Option ShellId)
  | startCommand (shell : ShellId) (a : StartArgs)
  | wait (cmd : CommandId)
  | signal (cmd : CommandId)
  deriving DecidableEq, Repr

/-- The remote side: what each call returns and how it changes the world. -/
structure Remote (σ : Type) where
  createShell : σ → Except GoError ShellId × σ
  close : σ → Option ShellId → Option GoError × σ
  startCommand : σ → ShellId → StartArgs → Except GoError CommandId × σ
  wait : σ → CommandId → Option GoError × σ
  signal : σ → CommandId → σ

/-- What a helper leaves behind: the error it returns (`none` for nil), the calls it
made in order, and the world after them. -/
structure Outcome (σ : Type) where
  err : Option GoError
  trace : List Event
  world : σ

/-- The function `RunCommandWithOutput` (util.go, lines 93-103). A nil shell returns
an error at once. A failed `StartCommand` returns its error. Otherwise `cmd.Signal()` is
deferred: the operand of `return`, `cmd.Wait()`, is evaluated first, then the deferred
call runs, then the value of `Wait` is returned. -/
def RunCommandWithOutput {σ : Type} (R : Remote σ) (w : σ) (shell : Option ShellId)
    (command : String) (args : List String)
    (winrsConsoleModeStdin winrsSkipCmdShell : Bool) (stdout stderr : Sink) : Outcome σ :=
  match shell with
  | none => { err := some "shell cannot be nil", trace := [], world := w }
  | some sh =>
    let a : StartArgs :=
      { command := command, args := args, winrsConsoleModeStdin := winrsConsoleModeStdin,
        winrsSkipCmdShell := winrsSkipCmdShell, stdout := stdout, stderr := stderr }
    match R.startCommand w sh a with
    | (Except.error err, w1) =>
      { err := some err, trace := [Event.startCommand sh a], world := w1 }
    | (Except.ok cmd, w1) =>
      let (result, w2) := R.wait w1 cmd
      let w3 := R.signal w2 cmd
      { err := result,
        trace := [Event.startCommand sh a, Event.wait cmd, Event.signal cmd],
        world := w3 }

/-- The function `RunCommand` (util.go, lines 87-91): two new empty buffers are made
and handed to `RunCommandWithOutput` as `stdout` and `stderr`. -/
def RunCommand {σ : Type} (R : Remote σ) (w : σ) (shell : Option ShellId)
    (command : String) (args : List String)
    (winrsConsoleModeStdin winrsSkipCmdShell : Bool) : Outcome σ :=
  let stdout := Sink.newBuffer 0
  let stderr := Sink.newBuffer 1
  RunCommandWithOutput R w shell command args winrsConsoleModeStdin winrsSkipCmdShell
    stdout stderr

/-- Whether an event is a `Signal` call. -/
def Event.isSignal : Event → Bool
  | Event.signal _ => true
  | _ => false

/-- Whether an event is a `Wait` call. -/
def Event.isWait : Event → Bool
  | Event.wait _ => true
  | _ => false

/-! ## The shell-creation loop of the demo (test/main.go, lines 49-62) -/

/-- The state of `main` while the pool is built: the world, the slice `shells` (a nil
entry is `none`) and the calls made so far. The `fmt.Printf` calls have no effect on
the pool and are left out. -/
structure PoolState (σ : Type) where
  world : σ
  shells : List (Option ShellId)
  trace : List Event

/-- The inner loop `for j := i; j > 0; j--` with body `shells[j].Close()`, entered
with `j`. The call is recorded with the handle found in slot `j`, a nil handle
included; the error it returns is only printed. -/
def closeCreated {σ : Type} (R : Remote σ) : Nat → PoolState σ → PoolState σ
  | 0, st => st
  | j + 1, st =>
    let handle := (st.shells.getD (j + 1) none)
    let (_, w) := R.close st.world handle
    closeCreated R j
      { world := w, shells := st.shells, trace := st.trace ++ [Event.close (j + 1) handle] }

/-- The body of the loop `for i := 0; i < shellCount; i++`: `shells[i]` is assigned
the handle that `CreateShell` returns (nil with an error), and on an error the inner
loop runs. Nothing leaves the outer loop. -/
def createStep {σ : Type} (R : Remote σ) (st : PoolState σ) (i : Nat) : PoolState σ :=
  match R.createShell st.world with
  | (Except.ok sh, w) =>
    { world := w, shells := st.shells.set i (some sh),
      trace := st.trace ++ [Event.createShell] }
  | (Except.error _, w) =>
    closeCreated R i
      { world := w, shells := st.shells.set i none,
        trace := st.trace ++ [Event.createShell] }

/-- The creation loop on a pool slice of `shellCount` nil handles, as
`make([]*winrm.Shell, shellCount)` returns it when it does not panic; the check that
`make` performs on the length is `makeShells`. -/
def createPool {σ : Type} (R : Remote σ) (w : σ) (shellCount : Nat) : PoolState σ :=
  (List.range shellCount).foldl (createStep R)
    { world := w, shells := List.replicate shellCount none, trace := [] }

/-- A remote side whose world counts the `CreateShell` calls made: the call numbered
`failAt` (from 0) fails, every other call returns the handle with its own number;
`Close` and the command calls succeed. -/
def failingRemote (failAt : Nat) : Remote Nat where
  createShell := fun n =>
    if n = failAt then (Except.error "quota exceeded", n + 1) else (Except.ok n, n + 1)
  close := fun n _ => (none, n)
  startCommand := fun n _ _ => (Except.ok 0, n)
  wait := fun n _ => (none, n)
  signal := fun n _ => n

/-- A remote side without state whose command exits with code 1: `StartCommand`
returns command 7 and `Wait` returns an error. -/
def exitOneRemote : Remote Unit where
  createShell := fun _ => (Except.ok 0, ())
  close := fun _ _ => (none, ())
  startCommand := fun _ _ _ => (Except.ok 7, ())
  wait := fun _ _ => (some "exit code 1", ())
  signal := fun _ _ => ()

/-! ## `formatBytes` (util.go, lines 113-126)

A finite `float64` is a rational number, the comparison with `1024.0` is exact, and a
division by `1024.0` of a value above 1024 is exact (it only lowers the exponent), so
on finite inputs the loop computes with rationals. -/

/-- The table `units`. -/
def units : List String := ["bytes", "KiB", "MiB", "GiB"]

/-- The loop `for bytes > 1024.0 && logBase1024 < len(units)` with body
`bytes /= 1024.0; logBase1024++`, entered with the given values: the values of `bytes`
and `logBase1024` when the loop is left. -/
def formatBytesLoop (bytes : ℚ) (logBase1024 : Nat) : ℚ × Nat :=
  if bytes > 1024 ∧ logBase1024 < units.length then
    formatBytesLoop (bytes / 1024) (logBase1024 + 1)
  else (bytes, logBase1024)
termination_by units.length - logBase1024
decreasing_by
  simp_wf
  omega

/-- Round a rational to the nearest integer, a tie going to the even neighbour. -/
def roundHalfEven (x : ℚ) : Int :=
  let f := Int.floor x
  let r := x - f
  if r < 1 / 2 then f else if 1 / 2 < r then f + 1 else if f % 2 = 0 then f else f + 1

/-- The number of thousandths that the verb `%.3f` prints for a value: Go converts the
`float64` to its exact decimal expansion and rounds it to three decimals, a tie going
to the even digit; the sign is printed apart. -/
def thousandths (v : ℚ) : Nat := (roundHalfEven (abs v * 1000)).toNat

/-- The character of a decimal digit. -/
def decimalDigit (d : Nat) : Char := Char.ofNat (48 + d)

/-- The verb `%.3f`: a minus sign for a negative value, the integer part, a point and
three decimals. -/
def formatFixed3 (v : ℚ) : String :=
  let t := thousandths v
  (if v < 0 then "-" else "") ++ Nat.repr (t / 1000) ++ "."
    ++ String.mk [decimalDigit (t / 100 % 10), decimalDigit (t / 10 % 10), decimalDigit (t % 10)]

/-- The number that the text printed by `%.3f` for a non-negative value denotes. -/
def reportedValue (v : ℚ) : ℚ := (thousandths v : ℚ) / 1000

/-- The function `formatBytes`: the string
`fmt.Sprintf("%.3f %s", bytes, units[logBase1024])`, or the run-time panic of the index
expression when `logBase1024` is not an index of `units`. -/
def formatBytes (bytes : ℚ) : Except String String :=
  let (bytes, logBase1024) := formatBytesLoop bytes 0
  match units.get? logBase1024 with
  | some unit => Except.ok (formatFixed3 bytes ++ " " ++ unit)
  | none => Except.error "index out of range"

/-! ## `MustRunCommand` (util.go, lines 106-111) -/

/-- What `MustRunCommand` leaves behind: the value it panics with (`none` when it
returns normally), the calls it made in order, and the world after them. -/
structure MustOutcome (σ : Type) where
  panic : Option String
  trace : List Event
  world : σ

/-- The rendering of a string slice by the verb `%+v`: the elements separated by
blanks, in square brackets. -/
def formatStrings (l : List String) : String := "[" ++ " ".intercalate l ++ "]"

/-- The function `MustRunCommand`: call `RunCommand`, and panic with the error
`error while running command <command and args>: <err>` when it returns an error. -/
def MustRunCommand {σ : Type} (R : Remote σ) (w : σ) (shell : Option ShellId)
    (command : String) (args : List String)
    (winrsConsoleModeStdin winrsSkipCmdShell : Bool) : MustOutcome σ :=
  let out := RunCommand R w shell command args winrsConsoleModeStdin winrsSkipCmdShell
  match out.err with
  | some err =>
    { panic := some ("error while running command "
        ++ formatStrings ([command] ++ args) ++ ": " ++ err),
      trace := out.trace, world := out.world }
  | none => { panic := none, trace := out.trace, world := out.world }

/-! ## `FormatURL` (util.go, lines 136-142) -/

/-- The decimal rendering of an `int` by the verb `%d`: the digits, after a minus sign
for a negative number. -/
def formatDecimal (i : Int) : String :=
  if i < 0 then "-" ++ Nat.repr i.natAbs else Nat.repr i.natAbs

/-- An operand of `fmt.Sprintf`: a string or an `int`. -/
inductive FmtArg where
  | str (s : String)
  | int (i : Int)

/-- The part of `fmt.Sprintf` this file uses, on the characters of the format: the
verb `%s` is replaced by the next operand when it is a string and `%d` by the decimal
rendering of the next operand when it is an `int`, the operand being written as it is
and not scanned for verbs; every other character is copied. -/
def sprintfChars : List Char → List FmtArg → List Char
  | [], _ => []
  | [c], _ => [c]
  | c :: d :: rest, args =>
    if c = '%' ∧ d = 's' then
      match args with
      | FmtArg.str s :: more => s.data ++ sprintfChars rest more
      | _ => c :: sprintfChars (d :: rest) args
    else if c = '%' ∧ d = 'd' then
      match args with
      | FmtArg.int i :: more => (formatDecimal i).data ++ sprintfChars rest more
      | _ => c :: sprintfChars (d :: rest) args
    else c :: sprintfChars (d :: rest) args

/-- The call `fmt.Sprintf(format, args...)`. -/
def Sprintf (format : String) (args : List FmtArg) : String :=
  String.mk (sprintfChars format.data args)

/-- The function `FormatURL`. -/
def FormatURL (useTLS : Bool) (host : String) (port : Int) : String :=
  let scheme := "http"
  let scheme := if useTLS then "https" else scheme
  Sprintf "%s://%s:%d/wsman" [FmtArg.str scheme, FmtArg.str host, FmtArg.int port]

/-! ## The demo entry point (test/main.go)

`strconv.Atoi` belongs to Go's standard library and `NewFileTreeCopier` and
`(*FileTreeCopier).Run` are not part of the two source files; the former is modelled
from its documentation, the latter two are parameters. -/

/-- The size of Go's `int` in bits on a 64-bit platform. -/
def intSize : Nat := 64

/-- The two error values of `strconv`: `ErrSyntax` and `ErrRange`. -/
inductive NumErr where
  | errSyntax
  | errRange
  deriving DecidableEq, Repr

/-- The error type `*strconv.NumError`: the failing function, the input and the
error value. -/
structure NumError where
  Func : String
  Num : String
  Err : NumErr
  deriving DecidableEq, Repr

/-- The largest `uint64`. -/
def maxUint64 : Nat := 2 ^ 64 - 1

/-- The loop of `strconv.ParseUint(s, 10, 64)` over the characters not yet read, with
the value `n` read so far. A character that is not a decimal digit is a syntax error
with the value 0; a digit that would take the value beyond `uint64` is a range error
with the largest `uint64`, returned at once, whatever follows. -/
def parseUintLoop : List Char → Nat → Nat × Option NumErr
  | [], n => (n, none)
  | c :: rest, n =>
    if '0' ≤ c ∧ c ≤ '9' then
      let d := c.toNat - 48
      if n ≥ maxUint64 / 10 + 1 then (maxUint64, some NumErr.errRange)
      else
        let n := n * 10
        let n1 := (n + d) % 2 ^ 64
        if n1 < n ∨ n1 > maxUint64 then (maxUint64, some NumErr.errRange)
        else parseUintLoop rest n1
    else (0, some NumErr.errSyntax)

/-- The function `strconv.ParseUint(s, 10, 64)`: the empty string is a syntax error. -/
def ParseUint (s : List Char) : Nat × Option NumErr :=
  if s = [] then (0, some NumErr.errSyntax) else parseUintLoop s 0

/-- The function `strconv.ParseInt(s, 10, 0)` with a 64-bit `int`: a leading sign is
picked off, the rest goes to `ParseUint`; a syntax error returns 0, and a value that an
`int` cannot hold returns the largest `int`, or the smallest for a negative value,
with a range error. -/
def ParseInt (s : List Char) : Int × Option NumErr :=
  match s with
  | [] => (0, some NumErr.errSyntax)
  | c :: t =>
    let neg : Bool := decide (c = '-')
    let rest := if c = '+' ∨ c = '-' then t else c :: t
    let (un, err) := ParseUint rest
    if err = some NumErr.errSyntax then (0, some NumErr.errSyntax)
    else
      let cutoff : Nat := 2 ^ (intSize - 1)
      if neg = false ∧ un ≥ cutoff then (((cutoff - 1 : Nat) : Int), some NumErr.errRange)
      else if neg = true ∧ un > cutoff then (-(cutoff : Int), some NumErr.errRange)
      else (if neg then -(un : Int) else (un : Int), none)

/-- The function `strconv.Atoi`, which is `ParseInt(s, 10, 0)` converted to `int`, the
error naming `Atoi` and the input. Its fast path for short inputs returns the same
values. -/
def Atoi (s : String) : Int × Option NumError :=
  let (i64, err) := ParseInt s.data
  (i64, err.map (fun e => { Func := "Atoi", Num := s, Err := e }))

/-- The lines 28-34 of `main`: `shellCount` is what `strconv.Atoi` returns for the
parallelism flag, its error being printed and nothing more, and a value below 1 is
replaced by 1. -/
def shellCountOf (parallelismFlag : String) : Int :=
  let (shellCount, _) := Atoi parallelismFlag
  if shellCount < 1 then 1 else shellCount

/-- The file-tree copier, taken as a parameter: `NewFileTreeCopier(shells, remoteRoot,
localRoot)` and `copier.Run()`, each returning its error and the world after it. The
copier borrows the shells and closes none, so its calls add no `Close` to the trace. -/
structure CopierOps (σ : Type) where
  newFileTreeCopier : σ → List (Option ShellId) → String → String → Option GoError × σ
  run : σ → Option GoError × σ

/-- How `main` ends: it returns, it panics, or the process exits through
`log.Fatalf`, which calls `os.Exit(1)`. -/
inductive Ending where
  | returned
  | panicked (value : String)
  | exited (code : Nat)
  deriving DecidableEq, Repr

/-- What a run of the demo leaves behind. -/
structure DemoOutcome (σ : Type) where
  ending : Ending
  trace : List Event
  world : σ

/-- The deferred function of `main` (lines 63-70), entered at slot `i`: the loop
`for _, shell := range shells` calls `shell.Close()` on each handle in turn; an error is
printed and the loop goes on. -/
def closeAllFrom {σ : Type} (R : Remote σ) : Nat → List (Option ShellId) → σ → List Event × σ
  | _, [], w => ([], w)
  | i, shell :: rest, w =>
    let (_, w1) := R.close w shell
    let (events, w2) := closeAllFrom R (i + 1) rest w1
    (Event.close i shell :: events, w2)

/-- The deferred function of `main` on the whole pool. -/
def closeAll {σ : Type} (R : Remote σ) (shells : List (Option ShellId)) (w : σ) :
    List Event × σ :=
  closeAllFrom R 0 shells w

/-- The value of `remoteRoot`. -/
def remoteRoot : String := "C:\\workspace"

/-- The value of `localRoot`. -/
def localRoot : String := "."

/-- The statements of `main` after the `defer` (lines 71-84), up to the point where
`main` returns, panics or exits: two control commands on `shells[0]`, the copier, two
more commands. A panic of `MustRunCommand` and a `log.Fatalf` end the run at once. -/
def demoBody {σ : Type} (R : Remote σ) (C : CopierOps σ) (w : σ)
    (shells : List (Option ShellId)) : DemoOutcome σ :=
  let shell0 := shells.getD 0 none
  let m1 := MustRunCommand R w shell0 "winrm get winrm/config" [] true false
  match m1.panic with
  | some v => { ending := Ending.panicked v, trace := m1.trace, world := m1.world }
  | none =>
    let m2 := MustRunCommand R m1.world shell0
      (Sprintf "if exist \"%s\" rd /s /q \"%s\""
        [FmtArg.str (remoteRoot ++ "\\"), FmtArg.str remoteRoot]) [] true false
    match m2.panic with
    | some v =>
      { ending := Ending.panicked v, trace := m1.trace ++ m2.trace, world := m2.world }
    | none =>
      match C.newFileTreeCopier m2.world shells remoteRoot localRoot with
      | (some _, w3) =>
        { ending := Ending.exited 1, trace := m1.trace ++ m2.trace, world := w3 }
      | (none, w3) =>
        match C.run w3 with
        | (some _, w4) =>
          { ending := Ending.exited 1, trace := m1.trace ++ m2.trace, world := w4 }
        | (none, w4) =>
          let m3 := MustRunCommand R w4 shell0
            (Sprintf "dir \"%s\"" [FmtArg.str remoteRoot]) [] true false
          match m3.panic with
          | some v =>
            { ending := Ending.panicked v, trace := m1.trace ++ m2.trace ++ m3.trace,
              world := m3.world }
          | none =>
            let m4 := MustRunCommand R m3.world shell0
              (Sprintf "type \"%s\"" [FmtArg.str (remoteRoot ++ "\\README.md")]) []
              true false
            match m4.panic with
            | some v =>
              { ending := Ending.panicked v,
                trace := m1.trace ++ m2.trace ++ m3.trace ++ m4.trace, world := m4.world }
            | none =>
              { ending := Ending.returned,
                trace := m1.trace ++ m2.trace ++ m3.trace ++ m4.trace, world := m4.world }

/-- The run of `main` from the `defer` statement on (lines 63-85), given the pool. The
deferred function runs when `main` returns and when it panics; `os.Exit` ends the
process without running deferred functions. -/
def demoFromPool {σ : Type} (R : Remote σ) (C : CopierOps σ) (w : σ)
    (shells : List (Option ShellId)) : DemoOutcome σ :=
  let body := demoBody R C w shells
  match body.ending with
  | Ending.exited code =>
    { ending := Ending.exited code, trace := body.trace, world := body.world }
  | ending =>
    let (events, w1) := closeAll R shells body.world
    { ending := ending, trace := body.trace ++ events, world := w1 }

/-- The bound `maxAlloc` of the Go runtime on a 64-bit platform with 48-bit heap
addresses. -/
def maxAlloc : Nat := 2 ^ 48

/-- The size in bytes of a `*winrm.Shell` on a 64-bit platform. -/
def pointerSize : Nat := 8

/-- The statement `shells := make([]*winrm.Shell, shellCount)` (line 49): the runtime
panics when the length is negative or the slice would take more than `maxAlloc` bytes,
and returns a slice of nil handles otherwise. Running out of memory below that bound is
not modelled. -/
def makeShells (shellCount : Int) : Except String (List (Option ShellId)) :=
  if shellCount < 0 ∨ shellCount.toNat * pointerSize > maxAlloc then
    Except.error "runtime error: makeslice: len out of range"
  else Except.ok (List.replicate shellCount.toNat none)

/-- The lines 28-62 of `main`: the shell count, the `make` of the pool slice, which may
panic, and the creation loop `for i := 0; i < shellCount; i++`. -/
def buildPool {σ : Type} (R : Remote σ) (w : σ) (parallelismFlag : String) :
    Except String (PoolState σ) :=
  let shellCount := shellCountOf parallelismFlag
  match makeShells shellCount with
  | Except.error msg => Except.error msg
  | Except.ok shells =>
    Except.ok ((List.range shellCount.toNat).foldl (createStep R)
      { world := w, shells := shells, trace := [] })

/-- The function `main` from the parallelism flag on: the shell count, the pool, then
the rest of the run; a panic of `make` ends the run before any call is made. -/
def demoMain {σ : Type} (R : Remote σ) (C : CopierOps σ) (w : σ)
    (parallelismFlag : String) : DemoOutcome σ :=
  match buildPool R w parallelismFlag with
  | Except.error msg => { ending := Ending.panicked msg, trace := [], world := w }
  | Except.ok pool =>
    let rest := demoFromPool R C pool.world pool.shells
    { ending := rest.ending, trace := pool.trace ++ rest.trace, world := rest.world }

/-- Whether an event is a `Close` call. -/
def Event.isClose : Event → Bool
  | Event.close _ _ => true
  | _ => false

/-- A remote side on which every call succeeds: `CreateShell` hands out the handles
0, 1, 2, ... and the world counts them. -/
def okRemote : Remote Nat where
  createShell := fun n => (Except.ok n, n + 1)
  close := fun n _ => (none, n)
  startCommand := fun n _ _ => (Except.ok 0, n)
  wait := fun n _ => (none, n)
  signal := fun n _ => n

/-- A remote side whose world counts the `Close` calls made and where every `Close`
returns an error. -/
def countingCloseRemote : Remote Nat where
  createShell := fun n => (Except.ok 0, n)
  close := fun n _ => (some "close failed", n + 1)
  startCommand := fun n _ _ => (Except.ok 0, n)
  wait := fun n _ => (none, n)
  signal := fun n _ => n

/-- A copier whose construction fails. -/
def failingNewCopier : CopierOps Nat where
  newFileTreeCopier := fun n _ _ _ => (some "local root does not exist", n)
  run := fun n => (none, n)

/-- A copier whose run fails. -/
def failingRunCopier : CopierOps Nat where
  newFileTreeCopier := fun n _ _ _ => (none, n)
  run := fun n => (some "copy failed", n)

/-- A copier that succeeds. -/
def okCopier : CopierOps Nat where
  newFileTreeCopier := fun n _ _ _ => (none, n)
  run := fun n => (none, n)

/-- The escaped set of `PowerShellSingleQuotedStringLiteral`: the eight escaped
control characters, the double quote, the single quote and the backtick. -/
def escapedSet : List Char := escapedControls ++ [doubleQuote, singleQuote, backtick]

/-! # Properties -/
/-! ## Lemmas on the quoting loop -/

theorem quoteStep_eq (sb : List Char) (r : Char) : quoteStep sb r = sb ++ writtenFor r := by
  unfold quoteStep writtenFor
  cases escapeOf r <;> rfl

theorem foldl_quoteStep (l sb : List Char) :
    l.foldl quoteStep sb = sb ++ l.flatMap writtenFor := by
  induction l generalizing sb with
  | nil => simp
  | cons r t ih => simp [List.foldl_cons, ih, quoteStep_eq, List.flatMap_cons, List.append_assoc]

theorem literal_data (v : String) :
    (PowerShellSingleQuotedStringLiteral v).data
      = singleQuote :: (v.data.flatMap writtenFor ++ [singleQuote]) := by
  simp [PowerShellSingleQuotedStringLiteral, foldl_quoteStep]

theorem stripOuterQuotes_wrap (body : List Char) :
    stripOuterQuotes (singleQuote :: (body ++ [singleQuote])) = some body := by
  simp [stripOuterQuotes]

theorem read_cons_plain (c : Char) (rest : List Char) (h : c ≠ backtick) :
    readBacktickEscaped (c :: rest) = (readBacktickEscaped rest).map (fun t => c :: t) := by
  cases rest with
  | nil => simp [readBacktickEscaped, h]
  | cons d t => simp [readBacktickEscaped, h]

theorem read_cons_escape (d x : Char) (rest : List Char) (h : escapeMeaning d = some x) :
    readBacktickEscaped (backtick :: d :: rest)
      = (readBacktickEscaped rest).map (fun t => x :: t) := by
  simp [readBacktickEscaped, h]

theorem escapeOf_some (r : Char) (e : List Char) (h : escapeOf r = some e) :
    ∃ d, e = [backtick, d] ∧ escapeMeaning d = some r := by
  unfold escapeOf at h
  by_cases h1 : r = '\n'
  · rw [if_pos h1] at h; cases h; subst h1; exact ⟨_, rfl, by decide⟩
  rw [if_neg h1] at h
  by_cases h2 : r = '\r'
  · rw [if_pos h2] at h; cases h; subst h2; exact ⟨_, rfl, by decide⟩
  rw [if_neg h2] at h
  by_cases h3 : r = '\t'
  · rw [if_pos h3] at h; cases h; subst h3; exact ⟨_, rfl, by decide⟩
  rw [if_neg h3] at h
  by_cases h4 : r = bell
  · rw [if_pos h4] at h; cases h; subst h4; exact ⟨_, rfl, by decide⟩
  rw [if_neg h4] at h
  by_cases h5 : r = backspace
  · rw [if_pos h5] at h; cases h; subst h5; exact ⟨_, rfl, by decide⟩
  rw [if_neg h5] at h
  by_cases h6 : r = formFeed
  · rw [if_pos h6] at h; cases h; subst h6; exact ⟨_, rfl, by decide⟩
  rw [if_neg h6] at h
  by_cases h7 : r = verticalTab
  · rw [if_pos h7] at h; cases h; subst h7; exact ⟨_, rfl, by decide⟩
  rw [if_neg h7] at h
  by_cases h8 : r = doubleQuote
  · rw [if_pos h8] at h; cases h; subst h8; exact ⟨_, rfl, by decide⟩
  rw [if_neg h8] at h
  by_cases h9 : r = singleQuote
  · rw [if_pos h9] at h; cases h; subst h9; exact ⟨_, rfl, by decide⟩
  rw [if_neg h9] at h
  by_cases h10 : r = backtick
  · rw [if_pos h10] at h; cases h; subst h10; exact ⟨_, rfl, by decide⟩
  rw [if_neg h10] at h
  by_cases h11 : r = nul
  · rw [if_pos h11] at h; cases h; subst h11; exact ⟨_, rfl, by decide⟩
  rw [if_neg h11] at h
  cases h

theorem escapeOf_none (r : Char) (h : escapeOf r = none) : r ≠ backtick := by
  intro hb
  subst hb
  revert h
  decide

theorem read_writtenFor (r : Char) (rest : List Char) :
    readBacktickEscaped (writtenFor r ++ rest)
      = (readBacktickEscaped rest).map (fun t => r :: t) := by
  unfold writtenFor
  cases h : escapeOf r with
  | none => exact read_cons_plain r rest (escapeOf_none r h)
  | some e =>
    obtain ⟨d, he, hd⟩ := escapeOf_some r e h
    subst he
    exact read_cons_escape d r rest hd

theorem read_flatMap_writtenFor (l rest : List Char) :
    readBacktickEscaped (l.flatMap writtenFor ++ rest)
      = (readBacktickEscaped rest).map (fun t => l ++ t) := by
  induction l with
  | nil => simp
  | cons r t ih =>
    rw [List.flatMap_cons, List.append_assoc, read_writtenFor, ih]
    cases readBacktickEscaped rest <;> simp

/-- C1. Quoting round-trip: for every string `v`, removing the opening and closing
single quote of `PowerShellSingleQuotedStringLiteral v` and reading the rest from left
to right under the backtick-escape convention yields exactly `v`. -/
theorem quoting_round_trip (v : String) :
    (stripOuterQuotes (PowerShellSingleQuotedStringLiteral v).data).bind readBacktickEscaped
      = some v.data := by
  rw [literal_data, stripOuterQuotes_wrap]
  have h := read_flatMap_writtenFor v.data []
  simpa [readBacktickEscaped] using h


/-! ## The verbatim reading -/

/-- C3. The literal for a newline is the four characters quote, backtick, `n`, quote;
read as a PowerShell single-quoted literal (verbatim, only a doubled quote special) it
evaluates to the two characters backtick and `n`, not to the newline; the literal for
a single quote has a quote that is not doubled and is no single-quoted literal. -/
theorem verbatim_reading_differs :
    (PowerShellSingleQuotedStringLiteral "\n").data = [singleQuote, backtick, 'n', singleQuote]
      ∧ evalSingleQuotedLiteral (PowerShellSingleQuotedStringLiteral "\n").data
          = some [backtick, 'n']
      ∧ evalSingleQuotedLiteral (PowerShellSingleQuotedStringLiteral "\n").data
          ≠ some "\n".data
      ∧ evalSingleQuotedLiteral
          (PowerShellSingleQuotedStringLiteral (String.mk [singleQuote])).data = none := by
  decide

/-! ## Tokens -/

theorem tokenize_cons_plain (c : Char) (rest : List Char) (h : c ≠ backtick) :
    tokenize (c :: rest) = (tokenize rest).map (fun t => Token.plain c :: t) := by
  cases rest with
  | nil => simp [tokenize, h]
  | cons d t => simp [tokenize, h]

theorem tokenize_cons_escape (d : Char) (rest : List Char) :
    tokenize (backtick :: d :: rest) = (tokenize rest).map (fun t => Token.escaped d :: t) := by
  simp [tokenize]

theorem tokenize_writtenFor (r : Char) (rest : List Char) :
    tokenize (writtenFor r ++ rest) = (tokenize rest).map (fun t => tokenFor r :: t) := by
  unfold writtenFor tokenFor
  cases h : escapeOf r with
  | none => exact tokenize_cons_plain r rest (escapeOf_none r h)
  | some e =>
    obtain ⟨d, he, _⟩ := escapeOf_some r e h
    subst he
    exact tokenize_cons_escape d rest

theorem tokenize_flatMap_writtenFor (l : List Char) :
    tokenize (l.flatMap writtenFor) = some (l.map tokenFor) := by
  induction l with
  | nil => simp [tokenize]
  | cons r t ih => rw [List.flatMap_cons, tokenize_writtenFor, ih]; simp

theorem escapeOf_none_not_special (r : Char) (h : escapeOf r = none) :
    r ≠ backtick ∧ r ≠ singleQuote ∧ r ≠ doubleQuote ∧ r ∉ escapedControls := by
  refine ⟨?_, ?_, ?_, ?_⟩
  · intro hb; subst hb; revert h; decide
  · intro hb; subst hb; revert h; decide
  · intro hb; subst hb; revert h; decide
  · intro hm
    simp only [escapedControls, List.mem_cons, List.mem_singleton, List.not_mem_nil,
      or_false] at hm
    rcases hm with hb | hb | hb | hb | hb | hb | hb | hb <;>
      (subst hb; revert h; decide)

/-- C4. No break-out: for every string `v`, the literal begins and ends with a single
quote, the text between them splits completely from left to right into tokens (so it
never ends in a dangling backtick), and no single-character token is a backtick, a
single quote, a double quote or an escaped control character. -/
theorem no_break_out (v : String) :
    ∃ toks : List Token,
      (stripOuterQuotes (PowerShellSingleQuotedStringLiteral v).data).bind tokenize
          = some toks
        ∧ toks.length = v.data.length
        ∧ ∀ c : Char, Token.plain c ∈ toks →
            c ≠ backtick ∧ c ≠ singleQuote ∧ c ≠ doubleQuote ∧ c ∉ escapedControls := by
  refine ⟨v.data.map tokenFor, ?_, by simp, ?_⟩
  · rw [literal_data, stripOuterQuotes_wrap]
    simpa using tokenize_flatMap_writtenFor v.data
  · intro c hc
    obtain ⟨r, _, hr⟩ := List.mem_map.mp hc
    unfold tokenFor at hr
    cases h : escapeOf r with
    | none =>
      rw [h] at hr
      cases hr
      exact escapeOf_none_not_special _ h
    | some e =>
      rw [h] at hr
      cases hr

/-! ## The UTF-16 loop -/

/-- The two bytes the source writes for a 16-bit unit. -/
theorem putUint16LE_toUint16 (u : Nat) (h : u < 65536) :
    putUint16LE (toUint16 u) = [u % 256, u / 256] := by
  unfold putUint16LE toUint16
  have h1 : u % 65536 = u := Nat.mod_eq_of_lt h
  have h2 : u / 256 % 256 = u / 256 := by omega
  rw [h1, h2]

theorem encodeStep_ok (buf : List Nat) (rune : Nat) (h : rune ≤ maxRune) :
    encodeStep buf rune
      = Except.ok (buf ++ (utf16UnitsOf rune).flatMap (fun u => [u % 256, u / 256])) := by
  unfold maxRune at h
  by_cases hs : rune < 0x10000
  · have he : utf16EncodeRune rune = (replacementChar, replacementChar) := by
      simp [utf16EncodeRune, surrSelf, hs]
    have hm : ¬ rune > maxRune := by unfold maxRune; omega
    simp only [encodeStep, he, if_true, hm, if_false, utf16UnitsOf, if_pos hs,
      List.flatMap_cons, List.flatMap_nil, List.append_nil]
    rw [putUint16LE_toUint16 rune (by omega)]
  · have hc : ¬ (rune < surrSelf ∨ rune > maxRune) := by
      unfold surrSelf maxRune; omega
    have he : utf16EncodeRune rune
        = (surr1 + (rune - surrSelf) / 1024 % 1024, surr2 + (rune - surrSelf) % 1024) := by
      simp [utf16EncodeRune, hc]
    have h2 : ¬ surr2 + (rune - surrSelf) % 1024 = replacementChar := by
      unfold surr2 surrSelf replacementChar; omega
    simp only [encodeStep, he, if_neg h2, utf16UnitsOf, if_neg hs, List.flatMap_cons,
      List.flatMap_nil, List.append_nil]
    rw [putUint16LE_toUint16 _ (by unfold surr1 surrSelf; omega),
      putUint16LE_toUint16 _ (by unfold surr2 surrSelf; omega)]
    have e1 : surr1 + (rune - surrSelf) / 1024 % 1024 = 0xD800 + (rune - 0x10000) / 1024 := by
      unfold surr1 surrSelf; omega
    have e2 : surr2 + (rune - surrSelf) % 1024 = 0xDC00 + (rune - 0x10000) % 1024 := by
      unfold surr2 surrSelf; omega
    rw [e1, e2]

theorem encodeStep_error (buf : List Nat) (rune : Nat) (h : maxRune < rune) :
    encodeStep buf rune = Except.error invalidScriptMessage := by
  have he : utf16EncodeRune rune = (replacementChar, replacementChar) := by
    simp [utf16EncodeRune, h]
  simp [encodeStep, he, h]

theorem foldlM_encodeStep_ok (script buf : List Nat) (h : ∀ c ∈ script, c ≤ maxRune) :
    script.foldlM encodeStep buf = Except.ok (buf ++ utf16LEBytes script) := by
  induction script generalizing buf with
  | nil => simp [utf16LEBytes, pure, Except.pure]
  | cons c t ih =>
    rw [List.foldlM_cons, encodeStep_ok buf c (h c (List.mem_cons_self c t))]
    show List.foldlM encodeStep _ t = _
    rw [ih _ (fun d hd => h d (List.mem_cons_of_mem c hd))]
    simp [utf16LEBytes, List.flatMap_cons, List.flatMap_append, List.append_assoc]

theorem foldlM_encodeStep_error (script buf : List Nat) (h : ∃ c ∈ script, maxRune < c) :
    script.foldlM encodeStep buf = Except.error invalidScriptMessage := by
  induction script generalizing buf with
  | nil => simp at h
  | cons c t ih =>
    rw [List.foldlM_cons]
    by_cases hc : maxRune < c
    · rw [encodeStep_error buf c hc]
      rfl
    · rw [encodeStep_ok buf c (by omega)]
      show List.foldlM encodeStep _ t = _
      apply ih
      obtain ⟨d, hd, hlt⟩ := h
      rcases List.mem_cons.mp hd with rfl | hd
      · exact absurd hlt hc
      · exact ⟨d, hd, hlt⟩

theorem encodeLoop_ok (script : List Nat) (h : ∀ c ∈ script, c ≤ maxRune) :
    encodeLoop script = Except.ok (utf16LEBytes script) := by
  unfold encodeLoop
  rw [foldlM_encodeStep_ok script [] h]
  simp

theorem encodeLoop_error (script : List Nat) (h : ∃ c ∈ script, maxRune < c) :
    encodeLoop script = Except.error invalidScriptMessage :=
  foldlM_encodeStep_error script [] h

theorem format_ok (script : List Nat) (h : ∀ c ∈ script, c ≤ maxRune) :
    FormatPowerShellScriptCommandLine script
      = Except.ok ["PowerShell", "-NoProfile", "-NonInteractive", "-ExecutionPolicy",
          "Unrestricted", "-EncodedCommand",
          String.mk (base64StdEncode (utf16LEBytes script))] := by
  unfold FormatPowerShellScriptCommandLine
  rw [encodeLoop_ok script h]

theorem format_error (script : List Nat) (h : ∃ c ∈ script, maxRune < c) :
    FormatPowerShellScriptCommandLine script = Except.error invalidScriptMessage := by
  unfold FormatPowerShellScriptCommandLine
  rw [encodeLoop_error script h]

theorem all_le_or_exists_gt (script : List Nat) :
    (∀ c ∈ script, c ≤ maxRune) ∨ ∃ c ∈ script, maxRune < c := by
  by_cases h : ∃ c ∈ script, maxRune < c
  · exact Or.inr h
  · left
    intro c hc
    by_contra hgt
    exact h ⟨c, hc, by omega⟩

/-! ## Base64 -/

theorem base64Value_base64Char (i : Nat) (h : i < 64) :
    base64Value (base64Char i) = some i := by
  interval_cases i <;> rfl

theorem base64Char_ne_pad (i : Nat) (h : i < 64) : base64Char i ≠ '=' := by
  interval_cases i <;> decide

theorem base64_round_trip (bytes : List Nat) (h : ∀ b ∈ bytes, b < 256) :
    base64StdDecode (base64StdEncode bytes) = some bytes := by
  induction bytes using base64StdEncode.induct with
  | case1 => rfl
  | case2 a =>
    have ha : a < 256 := h a (by simp)
    simp only [base64StdEncode, base64StdDecode, if_true,
      base64Value_base64Char _ (Nat.mod_lt _ (by norm_num : 64 > 0))]
    congr 2
    omega
  | case3 a b =>
    have ha : a < 256 := h a (by simp)
    have hb : b < 256 := h b (by simp)
    simp only [base64StdEncode, base64StdDecode, if_true,
      if_neg (base64Char_ne_pad _ (Nat.mod_lt _ (by norm_num : 64 > 0))),
      base64Value_base64Char _ (Nat.mod_lt _ (by norm_num : 64 > 0))]
    congr 2
    · omega
    · congr 1
      omega
  | case4 a b c rest ih =>
    have ha : a < 256 := h a (by simp)
    have hb : b < 256 := h b (by simp)
    have hc : c < 256 := h c (by simp)
    have hr : ∀ x ∈ rest, x < 256 := fun x hx => h x (by simp [hx])
    simp only [base64StdEncode, base64StdDecode,
      if_neg (base64Char_ne_pad _ (Nat.mod_lt _ (by norm_num : 64 > 0))),
      base64Value_base64Char _ (Nat.mod_lt _ (by norm_num : 64 > 0)), ih hr]
    congr 2
    · omega
    · congr 1
      · omega
      · congr 1
        omega

/-! ## UTF-16 decoding -/

theorem utf16UnitsLE_bytes (units : List Nat) (h : ∀ u ∈ units, u < 65536) :
    utf16UnitsLE (units.flatMap (fun u => [u % 256, u / 256])) = some units := by
  induction units with
  | nil => rfl
  | cons u t ih =>
    have hu : u < 65536 := h u (by simp)
    have ht := ih (fun x hx => h x (by simp [hx]))
    have hj : u % 256 + 256 * (u / 256) = u := by omega
    rw [List.flatMap_cons]
    show utf16UnitsLE (u % 256 :: u / 256 :: t.flatMap (fun u => [u % 256, u / 256])) = _
    rw [utf16UnitsLE, ht, Option.map_some', hj]

theorem utf16UnitsOf_lt (c : Nat) (h : c ≤ maxRune) : ∀ u ∈ utf16UnitsOf c, u < 65536 := by
  unfold maxRune at h
  intro u hu
  by_cases hs : c < 0x10000
  · rw [utf16UnitsOf, if_pos hs, List.mem_singleton] at hu
    omega
  · rw [utf16UnitsOf, if_neg hs] at hu
    simp only [List.mem_cons, List.mem_singleton, List.not_mem_nil, or_false] at hu
    rcases hu with hu | hu <;> omega

theorem utf16DecodeUnits_cons (c : Nat) (rest : List Nat) (h : isScalarValue c) :
    utf16DecodeUnits (utf16UnitsOf c ++ rest)
      = (utf16DecodeUnits rest).map (fun t => c :: t) := by
  unfold isScalarValue at h
  by_cases hs : c < 0x10000
  · have hu : c < 0xD800 ∨ 0xE000 ≤ c := by omega
    simp only [utf16UnitsOf, if_pos hs, List.cons_append, List.nil_append]
    cases rest with
    | nil => simp [utf16DecodeUnits, hu]
    | cons l t => simp only [utf16DecodeUnits, if_pos hu]
  · have h1 : ¬ (0xD800 + (c - 0x10000) / 1024 < 0xD800 ∨ 0xE000 ≤ 0xD800 + (c - 0x10000) / 1024) := by
      omega
    have h2 : 0xD800 + (c - 0x10000) / 1024 < 0xDC00 ∧ 0xDC00 ≤ 0xDC00 + (c - 0x10000) % 1024
        ∧ 0xDC00 + (c - 0x10000) % 1024 < 0xE000 := by
      omega
    have h3 : 0x10000 + (0xD800 + (c - 0x10000) / 1024 - 0xD800) * 1024
        + (0xDC00 + (c - 0x10000) % 1024 - 0xDC00) = c := by
      omega
    simp only [utf16UnitsOf, if_neg hs, List.cons_append, List.nil_append, utf16DecodeUnits,
      if_neg h1, if_pos h2, h3]

theorem utf16DecodeUnits_units (script : List Nat) (h : ∀ c ∈ script, isScalarValue c) :
    utf16DecodeUnits (script.flatMap utf16UnitsOf) = some script := by
  induction script with
  | nil => rfl
  | cons c t ih =>
    rw [List.flatMap_cons, utf16DecodeUnits_cons c _ (h c (by simp)),
      ih (fun x hx => h x (by simp [hx]))]
    rfl

theorem scalar_le_maxRune (c : Nat) (h : isScalarValue c) : c ≤ maxRune := by
  unfold isScalarValue at h
  unfold maxRune
  omega

theorem utf16LEDecode_bytes (script : List Nat) (h : ∀ c ∈ script, isScalarValue c) :
    utf16LEDecode (utf16LEBytes script) = some script := by
  unfold utf16LEDecode utf16LEBytes
  rw [utf16UnitsLE_bytes]
  · exact utf16DecodeUnits_units script h
  · intro u hu
    obtain ⟨c, hc, huc⟩ := List.mem_flatMap.mp hu
    exact utf16UnitsOf_lt c (scalar_le_maxRune c (h c hc)) u huc

theorem utf16LEBytes_byte (script : List Nat) (h : ∀ c ∈ script, c ≤ maxRune) :
    ∀ b ∈ utf16LEBytes script, b < 256 := by
  intro b hb
  unfold utf16LEBytes at hb
  obtain ⟨u, hu, hbu⟩ := List.mem_flatMap.mp hb
  obtain ⟨c, hc, huc⟩ := List.mem_flatMap.mp hu
  have hlt := utf16UnitsOf_lt c (h c hc) u huc
  simp only [List.mem_cons, List.mem_singleton, List.not_mem_nil, or_false] at hbu
  rcases hbu with rfl | rfl <;> omega

/-! ## Properties of `FormatPowerShellScriptCommandLine` -/

/-- C2. Encoding round-trip: for every script of Unicode scalar values the function
returns a command line, and base64-decoding its last element and decoding the bytes as
UTF-16 little-endian yields exactly the script. -/
theorem encoding_round_trip (script : List Nat) (h : ∀ c ∈ script, isScalarValue c) :
    ∃ commandLine : List String,
      FormatPowerShellScriptCommandLine script = Except.ok commandLine
        ∧ decodePayload commandLine = some script := by
  have hle : ∀ c ∈ script, c ≤ maxRune := fun c hc => scalar_le_maxRune c (h c hc)
  refine ⟨_, format_ok script hle, ?_⟩
  simp only [decodePayload, List.getLast?_cons_cons, List.getLast?_singleton, Option.some_bind]
  rw [base64_round_trip _ (utf16LEBytes_byte script hle)]
  exact utf16LEDecode_bytes script h

/-- Witness of C2 on the script U+1F600 followed by `A`. -/
theorem encoding_round_trip_witness :
    (∀ c ∈ [0x1F600, 65], isScalarValue c)
      ∧ ∃ commandLine : List String,
          FormatPowerShellScriptCommandLine [0x1F600, 65] = Except.ok commandLine
            ∧ decodePayload commandLine = some [0x1F600, 65] :=
  ⟨by decide, encoding_round_trip [0x1F600, 65] (by decide)⟩

/-- C5. Fixed invocation line: whenever the function returns a command line, it has
exactly seven elements, the first six are `PowerShell -NoProfile -NonInteractive
-ExecutionPolicy Unrestricted -EncodedCommand` whatever the script, and the seventh is
the standard base64 encoding of the UTF-16 little-endian bytes of the script. -/
theorem fixed_invocation_line (script : List Nat) (commandLine : List String)
    (h : FormatPowerShellScriptCommandLine script = Except.ok commandLine) :
    commandLine.length = 7
      ∧ commandLine.take 6 = ["PowerShell", "-NoProfile", "-NonInteractive",
          "-ExecutionPolicy", "Unrestricted", "-EncodedCommand"]
      ∧ commandLine.get? 6 = some (String.mk (base64StdEncode (utf16LEBytes script))) := by
  rcases all_le_or_exists_gt script with hle | hgt
  · rw [format_ok script hle] at h
    cases h
    exact ⟨rfl, rfl, rfl⟩
  · rw [format_error script hgt] at h
    cases h

/-- Witness of C5 on the script `hi`. -/
theorem fixed_invocation_line_witness :
    FormatPowerShellScriptCommandLine [104, 105]
        = Except.ok ["PowerShell", "-NoProfile", "-NonInteractive", "-ExecutionPolicy",
            "Unrestricted", "-EncodedCommand", "aABpAA=="]
      ∧ (["PowerShell", "-NoProfile", "-NonInteractive", "-ExecutionPolicy",
            "Unrestricted", "-EncodedCommand", "aABpAA=="] : List String).get? 6
          = some (String.mk (base64StdEncode (utf16LEBytes [104, 105]))) :=
  ⟨rfl, (fixed_invocation_line [104, 105] _ rfl).2.2⟩

/-! ## The runes of a Go string -/

/-- Every rune that `decoderune` returns is a Unicode scalar value. -/
theorem decoderune_scalar (b0 : Nat) (rest : List Nat) :
    isScalarValue (decoderune b0 rest).1 := by
  have herr : isScalarValue runeError := by decide
  unfold decoderune
  by_cases c2 : 0xC0 ≤ b0 ∧ b0 < 0xE0
  · rw [if_pos c2]
    cases rest with
    | nil => exact herr
    | cons b1 r1 =>
      simp only
      by_cases k1 : 0x80 ≤ b1 ∧ b1 ≤ 0xBF
      · rw [if_pos k1]
        by_cases v : 0x7F < b0 % 32 * 64 + b1 % 64
        · rw [if_pos v]
          left
          show b0 % 32 * 64 + b1 % 64 < 0xD800
          omega
        · rw [if_neg v]
          exact herr
      · rw [if_neg k1]
        exact herr
  rw [if_neg c2]
  by_cases c3 : 0xE0 ≤ b0 ∧ b0 < 0xF0
  · rw [if_pos c3]
    rcases rest with _ | ⟨b1, _ | ⟨b2, r2⟩⟩
    · exact herr
    · exact herr
    · simp only
      by_cases k : (0x80 ≤ b1 ∧ b1 ≤ 0xBF) ∧ (0x80 ≤ b2 ∧ b2 ≤ 0xBF)
      · rw [if_pos k]
        by_cases v : 0x7FF < b0 % 16 * 4096 + b1 % 64 * 64 + b2 % 64
            ∧ ¬ (0xD800 ≤ b0 % 16 * 4096 + b1 % 64 * 64 + b2 % 64
              ∧ b0 % 16 * 4096 + b1 % 64 * 64 + b2 % 64 ≤ 0xDFFF)
        · rw [if_pos v]
          show b0 % 16 * 4096 + b1 % 64 * 64 + b2 % 64 < 0xD800
            ∨ (0xE000 ≤ b0 % 16 * 4096 + b1 % 64 * 64 + b2 % 64
              ∧ b0 % 16 * 4096 + b1 % 64 * 64 + b2 % 64 ≤ 0x10FFFF)
          omega
        · rw [if_neg v]
          exact herr
      · rw [if_neg k]
        exact herr
  rw [if_neg c3]
  by_cases c4 : 0xF0 ≤ b0 ∧ b0 < 0xF8
  · rw [if_pos c4]
    rcases rest with _ | ⟨b1, _ | ⟨b2, _ | ⟨b3, r3⟩⟩⟩
    · exact herr
    · exact herr
    · exact herr
    · simp only
      by_cases k : (0x80 ≤ b1 ∧ b1 ≤ 0xBF) ∧ (0x80 ≤ b2 ∧ b2 ≤ 0xBF)
          ∧ (0x80 ≤ b3 ∧ b3 ≤ 0xBF)
      · rw [if_pos k]
        by_cases v : 0xFFFF < b0 % 8 * 262144 + b1 % 64 * 4096 + b2 % 64 * 64 + b3 % 64
            ∧ b0 % 8 * 262144 + b1 % 64 * 4096 + b2 % 64 * 64 + b3 % 64 ≤ maxRune
        · rw [if_pos v]
          have v2 := v.2
          unfold maxRune at v2
          right
          show 0xE000 ≤ b0 % 8 * 262144 + b1 % 64 * 4096 + b2 % 64 * 64 + b3 % 64
            ∧ b0 % 8 * 262144 + b1 % 64 * 4096 + b2 % 64 * 64 + b3 % 64 ≤ 0x10FFFF
          omega
        · rw [if_neg v]
          exact herr
      · rw [if_neg k]
        exact herr
  rw [if_neg c4]
  exact herr

/-- Whatever the bytes of a Go string, `range` yields Unicode scalar values only. -/
theorem rangeFrom_scalar (script : List Nat) (skip : Nat) :
    ∀ c ∈ rangeFrom skip script, isScalarValue c := by
  induction script generalizing skip with
  | nil =>
    intro c hc
    cases skip <;> simp [rangeFrom] at hc
  | cons b0 rest ih =>
    cases skip with
    | succ k =>
      intro c hc
      exact ih k c (by simpa [rangeFrom] using hc)
    | zero =>
      intro c hc
      by_cases ha : b0 < 0x80
      · rw [rangeFrom, if_pos ha, List.mem_cons] at hc
        rcases hc with rfl | hc
        · left
          omega
        · exact ih 0 c hc
      · rw [rangeFrom, if_neg ha, List.mem_cons] at hc
        rcases hc with rfl | hc
        · exact decoderune_scalar b0 rest
        · exact ih _ c hc

/-- The function never panics on a Go string: the test `rune > unicode.MaxRune` is
never true of a rune that `range` yields, so the panic `script is not valid UTF-8` is
out of reach, also for bytes that are not valid UTF-8. -/
theorem format_string_never_panics (script : List Nat) :
    FormatPowerShellScriptCommandLineString script
      = Except.ok ["PowerShell", "-NoProfile", "-NonInteractive", "-ExecutionPolicy",
          "Unrestricted", "-EncodedCommand",
          String.mk (base64StdEncode (utf16LEBytes (rangeRunes script)))] := by
  unfold FormatPowerShellScriptCommandLineString
  exact format_ok _ (fun c hc => scalar_le_maxRune c (rangeFrom_scalar script 0 c hc))

/-- C6. The Go string of the four bytes `F4 90 80 80`, the four-byte UTF-8 form of the
code point 0x110000, which is outside the Unicode range: `range` yields the rune U+FFFD
for each of the four bytes, the test `rune > unicode.MaxRune` is false of each, and the
function returns the command line of four replacement characters instead of the panic
`script is not valid UTF-8`. -/
theorem out_of_range_encoding_is_accepted :
    utf8FourByteForm 0x110000 = [0xF4, 0x90, 0x80, 0x80]
      ∧ maxRune < 0x110000
      ∧ rangeRunes [0xF4, 0x90, 0x80, 0x80] = [0xFFFD, 0xFFFD, 0xFFFD, 0xFFFD]
      ∧ FormatPowerShellScriptCommandLineString [0xF4, 0x90, 0x80, 0x80]
          = Except.ok ["PowerShell", "-NoProfile", "-NonInteractive", "-ExecutionPolicy",
              "Unrestricted", "-EncodedCommand", "/f/9//3//f8="] := by
  refine ⟨by decide, by decide, by decide, ?_⟩
  rw [format_string_never_panics]
  exact congrArg Except.ok (by decide)

/-- Well-formed UTF-8 is read as the code points it encodes: the bytes of `A`, U+00E9,
U+20AC and U+1F600. -/
theorem rangeRunes_example :
    rangeRunes [0x41, 0xC3, 0xA9, 0xE2, 0x82, 0xAC, 0xF0, 0x9F, 0x98, 0x80]
      = [0x41, 0xE9, 0x20AC, 0x1F600] := by
  decide

/-! ## The shell-creation loop -/

theorem closeCreated_shells {σ : Type} (R : Remote σ) (j : Nat) (st : PoolState σ) :
    (closeCreated R j st).shells = st.shells := by
  induction j generalizing st with
  | zero => rfl
  | succ j ih => simp only [closeCreated]; rw [ih]

/-- The inner loop entered with `j` calls `Close` on the slots `j, j-1, ..., 1`, in
that order, and on no other slot: slot 0 is never reached. -/
theorem closeCreated_trace {σ : Type} (R : Remote σ) (j : Nat) (st : PoolState σ) :
    (closeCreated R j st).trace
      = st.trace ++ (List.range j).reverse.map
          (fun k => Event.close (k + 1) (st.shells.getD (k + 1) none)) := by
  induction j generalizing st with
  | zero => simp [closeCreated]
  | succ j ih =>
    simp only [closeCreated]
    rw [ih]
    simp [List.range_succ, List.append_assoc]

/-- C7. A pool of two shells where the first `CreateShell` succeeds and the second
fails: the loop leaves the created handle 0 in slot 0 and nil in slot 1, and its only
`Close` call is on slot 1, the nil handle of the failed creation; the created shell in
slot 0 is not closed by the loop. -/
theorem creation_loop_misses_first_shell :
    (createPool (failingRemote 1) 0 2).shells = [some 0, none]
      ∧ (createPool (failingRemote 1) 0 2).trace
          = [Event.createShell, Event.createShell, Event.close 1 none]
      ∧ Event.close 0 (some 0) ∉ (createPool (failingRemote 1) 0 2).trace := by
  decide

/-! ## The run-command helpers -/

/-- C8. Scoped cleanup: on a non-nil shell, when `StartCommand` fails its error is
returned and neither `Wait` nor `Signal` is called; when it succeeds with a command,
the calls are `StartCommand`, then `Wait` once, then `Signal` once on that command,
and the value returned is exactly what `Wait` returned. `RunCommand` is
`RunCommandWithOutput` with its two buffers. -/
theorem scoped_cleanup {σ : Type} (R : Remote σ) (w : σ) (shell : ShellId)
    (command : String) (args : List String)
    (winrsConsoleModeStdin winrsSkipCmdShell : Bool) (stdout stderr : Sink) :
    (match R.startCommand w shell
        ⟨command, args, winrsConsoleModeStdin, winrsSkipCmdShell, stdout, stderr⟩ with
      | (Except.error err, w1) =>
        RunCommandWithOutput R w (some shell) command args winrsConsoleModeStdin
            winrsSkipCmdShell stdout stderr
          = { err := some err,
              trace := [Event.startCommand shell
                ⟨command, args, winrsConsoleModeStdin, winrsSkipCmdShell, stdout, stderr⟩],
              world := w1 }
      | (Except.ok cmd, w1) =>
        RunCommandWithOutput R w (some shell) command args winrsConsoleModeStdin
            winrsSkipCmdShell stdout stderr
          = { err := (R.wait w1 cmd).1,
              trace := [Event.startCommand shell
                ⟨command, args, winrsConsoleModeStdin, winrsSkipCmdShell, stdout, stderr⟩,
                Event.wait cmd, Event.signal cmd],
              world := R.signal (R.wait w1 cmd).2 cmd })
      ∧ (RunCommandWithOutput R w (some shell) command args winrsConsoleModeStdin
            winrsSkipCmdShell stdout stderr).trace.countP Event.isSignal
          = (if (R.startCommand w shell
              ⟨command, args, winrsConsoleModeStdin, winrsSkipCmdShell, stdout, stderr⟩).1.isOk
            then 1 else 0)
      ∧ (RunCommandWithOutput R w (some shell) command args winrsConsoleModeStdin
            winrsSkipCmdShell stdout stderr).trace.countP Event.isWait
          = (if (R.startCommand w shell
              ⟨command, args, winrsConsoleModeStdin, winrsSkipCmdShell, stdout, stderr⟩).1.isOk
            then 1 else 0)
      ∧ RunCommand R w (some shell) command args winrsConsoleModeStdin winrsSkipCmdShell
          = RunCommandWithOutput R w (some shell) command args winrsConsoleModeStdin
              winrsSkipCmdShell (Sink.newBuffer 0) (Sink.newBuffer 1) := by
  simp only [RunCommandWithOutput, RunCommand]
  rcases h : R.startCommand w shell
      ⟨command, args, winrsConsoleModeStdin, winrsSkipCmdShell, stdout, stderr⟩
    with ⟨res, w1⟩
  cases res with
  | error err => simp [Except.isOk, Except.toBool, Event.isSignal, Event.isWait]
  | ok cmd => simp [Except.isOk, Except.toBool, Event.isSignal, Event.isWait]

/-- C9. The sinks `RunCommand` hands to the started command are the two in-memory
buffers it has just made, whatever the call: the first call on a non-nil shell is
`StartCommand` with `stdout` and `stderr` set to those buffers, which are not the
standard output and standard error streams of the process. -/
theorem runCommand_sinks_are_buffers {σ : Type} (R : Remote σ) (w : σ) (shell : ShellId)
    (command : String) (args : List String)
    (winrsConsoleModeStdin winrsSkipCmdShell : Bool) :
    (RunCommand R w (some shell) command args winrsConsoleModeStdin
        winrsSkipCmdShell).trace.head?
      = some (Event.startCommand shell
          ⟨command, args, winrsConsoleModeStdin, winrsSkipCmdShell,
            Sink.newBuffer 0, Sink.newBuffer 1⟩)
      ∧ Sink.newBuffer 0 ≠ Sink.osStdout ∧ Sink.newBuffer 1 ≠ Sink.osStderr := by
  refine ⟨?_, by decide, by decide⟩
  simp only [RunCommand, RunCommandWithOutput]
  rcases h : R.startCommand w shell
      ⟨command, args, winrsConsoleModeStdin, winrsSkipCmdShell,
        Sink.newBuffer 0, Sink.newBuffer 1⟩
    with ⟨res, w1⟩
  cases res <;> simp

/-- C10. Nil shell fails fast: with a nil shell `RunCommandWithOutput` returns the
error `shell cannot be nil`, makes no call at all (no `StartCommand`, `Wait` or
`Signal`) and leaves the world as it was; the same holds for `RunCommand`. -/
theorem nil_shell_fails_fast {σ : Type} (R : Remote σ) (w : σ)
    (command : String) (args : List String)
    (winrsConsoleModeStdin winrsSkipCmdShell : Bool) (stdout stderr : Sink) :
    RunCommandWithOutput R w none command args winrsConsoleModeStdin winrsSkipCmdShell
        stdout stderr
      = { err := some "shell cannot be nil", trace := [], world := w }
      ∧ RunCommand R w none command args winrsConsoleModeStdin winrsSkipCmdShell
        = { err := some "shell cannot be nil", trace := [], world := w } :=
  ⟨rfl, rfl⟩

/-- The scenario of a remote command that exits with code 1: `RunCommand` returns the
error of `Wait`, and `Signal` was still called, after `Wait`. -/
theorem runCommand_exit_one :
    (RunCommand exitOneRemote () (some 3) "dir" [] true false).err = some "exit code 1"
      ∧ (RunCommand exitOneRemote () (some 3) "dir" [] true false).trace
          = [Event.startCommand 3 ⟨"dir", [], true, false, Sink.newBuffer 0, Sink.newBuffer 1⟩,
              Event.wait 7, Event.signal 7] :=
  ⟨rfl, rfl⟩

/-! ## `formatBytes` -/

theorem formatBytesLoop_stop (bytes : ℚ) (k : Nat)
    (h : ¬ (bytes > 1024 ∧ k < units.length)) :
    formatBytesLoop bytes k = (bytes, k) := by
  rw [formatBytesLoop, if_neg h]

theorem formatBytesLoop_step (bytes : ℚ) (k : Nat) (h : bytes > 1024)
    (hk : k < units.length) :
    formatBytesLoop bytes k = formatBytesLoop (bytes / 1024) (k + 1) := by
  rw [formatBytesLoop, if_pos ⟨h, hk⟩]

/-- The loop started at 0 on a value up to `1024^4`: it stops after `k < 4` divisions,
with `k = 0` exactly when `b ≤ 1024` and `1024^k < b ≤ 1024^(k+1)` otherwise. -/
theorem formatBytesLoop_upto (b : ℚ) (h1 : b ≤ 1024 ^ 4) :
    ∃ k : Nat, k < 4 ∧ formatBytesLoop b 0 = (b / 1024 ^ k, k)
      ∧ (k = 0 ↔ b ≤ 1024) ∧ (0 < k → (1024 : ℚ) ^ k < b ∧ b ≤ 1024 ^ (k + 1)) := by
  by_cases c1 : b ≤ 1024
  · refine ⟨0, by norm_num, ?_, by simp [c1], by simp⟩
    rw [formatBytesLoop_stop b 0 (by intro h; linarith [h.1])]
    simp
  have g1 : b > 1024 := lt_of_not_ge c1
  have s1 := formatBytesLoop_step b 0 g1 (by decide)
  by_cases c2 : b ≤ 1024 ^ 2
  · refine ⟨1, by norm_num, ?_, by simp [c1], fun _ => ⟨by simpa using g1, by simpa using c2⟩⟩
    rw [s1, formatBytesLoop_stop _ _ (by
      intro h
      have := h.1
      rw [gt_iff_lt, lt_div_iff₀ (by norm_num)] at this
      norm_num at this c2
      linarith)]
    simp
  have g2 : b / 1024 > 1024 := by
    rw [gt_iff_lt, lt_div_iff₀ (by norm_num)]
    norm_num at c2 ⊢
    linarith
  have s2 := formatBytesLoop_step (b / 1024) 1 g2 (by decide)
  by_cases c3 : b ≤ 1024 ^ 3
  · refine ⟨2, by norm_num, ?_, by simp [c1], fun _ => ⟨lt_of_not_ge c2, c3⟩⟩
    rw [s1, s2, formatBytesLoop_stop _ _ (by
      intro h
      have := h.1
      rw [gt_iff_lt, lt_div_iff₀ (by norm_num), lt_div_iff₀ (by norm_num)] at this
      norm_num at this c3
      linarith)]
    congr 1
    ring
  have g3 : b / 1024 / 1024 > 1024 := by
    rw [gt_iff_lt, lt_div_iff₀ (by norm_num), lt_div_iff₀ (by norm_num)]
    norm_num at c3 ⊢
    linarith
  have s3 := formatBytesLoop_step (b / 1024 / 1024) 2 g3 (by decide)
  refine ⟨3, by norm_num, ?_, by simp [c1], fun _ => ⟨lt_of_not_ge c3, h1⟩⟩
  rw [s1, s2, s3, formatBytesLoop_stop _ _ (by
    intro h
    have := h.1
    rw [gt_iff_lt, lt_div_iff₀ (by norm_num), lt_div_iff₀ (by norm_num),
      lt_div_iff₀ (by norm_num)] at this
    norm_num at this h1
    linarith)]
  congr 1
  ring

theorem roundHalfEven_near (x : ℚ) : abs ((roundHalfEven x : ℚ) - x) ≤ 1 / 2 := by
  have h1 : (Int.floor x : ℚ) ≤ x := Int.floor_le x
  have h2 : x < (Int.floor x : ℚ) + 1 := Int.lt_floor_add_one x
  unfold roundHalfEven
  simp only
  rw [abs_le]
  split_ifs with c1 c2 c3
  · constructor <;> linarith
  · push_cast
    constructor <;> linarith
  · constructor <;> linarith
  · push_cast
    constructor <;> linarith

theorem roundHalfEven_eq (x : ℚ) (n : Int) (h : abs (x - n) < 1 / 2) :
    roundHalfEven x = n := by
  rw [abs_lt] at h
  obtain ⟨hlo, hhi⟩ := h
  have hfloor : Int.floor x = n ∨ Int.floor x = n - 1 := by
    have f1 : n - 1 ≤ Int.floor x := by
      rw [Int.le_floor]
      push_cast
      linarith
    have f2 : Int.floor x < n + 1 := by
      rw [Int.floor_lt]
      push_cast
      linarith
    omega
  unfold roundHalfEven
  simp only
  rcases hfloor with hf | hf
  · rw [hf]
    have c1 : x - (n : ℚ) < 1 / 2 := by linarith
    rw [if_pos c1]
  · rw [hf]
    have c1 : ¬ (x - ((n - 1 : Int) : ℚ) < 1 / 2) := by
      push_cast
      linarith
    have c2 : 1 / 2 < x - ((n - 1 : Int) : ℚ) := by
      push_cast
      linarith
    rw [if_neg c1, if_pos c2]
    omega

theorem roundHalfEven_nonneg (x : ℚ) (h : 0 ≤ x) : 0 ≤ roundHalfEven x := by
  have hf : 0 ≤ Int.floor x := Int.floor_nonneg.mpr h
  unfold roundHalfEven
  simp only
  split_ifs <;> omega

/-- The value printed by `%.3f` is within half a thousandth of the value. -/
theorem reportedValue_near (v : ℚ) (h : 0 ≤ v) : abs (reportedValue v - v) ≤ 1 / 2000 := by
  unfold reportedValue thousandths
  rw [abs_of_nonneg h]
  have hn := roundHalfEven_nonneg (v * 1000) (by linarith)
  have hcast : ((roundHalfEven (v * 1000)).toNat : ℚ) = (roundHalfEven (v * 1000) : ℚ) := by
    have : ((roundHalfEven (v * 1000)).toNat : Int) = roundHalfEven (v * 1000) :=
      Int.toNat_of_nonneg hn
    exact_mod_cast this
  rw [hcast]
  have hnear := roundHalfEven_near (v * 1000)
  rw [abs_le] at hnear ⊢
  constructor <;> linarith [hnear.1, hnear.2]

/-- C11, the counterexample. For 1025 bytes the code prints `1.001 KiB`: the loop
divides once, `%.3f` rounds 1025/1024 to three decimals, the reported value is 1.001,
and 1.001 times 1024 is not 1025. -/
theorem reported_value_is_rounded :
    formatBytesLoop 1025 0 = (1025 / 1024, 1)
      ∧ formatBytes 1025 = Except.ok "1.001 KiB"
      ∧ reportedValue (1025 / 1024) = 1001 / 1000
      ∧ reportedValue (1025 / 1024) * 1024 ^ 1 ≠ 1025 := by
  have hloop : formatBytesLoop 1025 0 = (1025 / 1024, 1) := by
    rw [formatBytesLoop_step _ 0 (by norm_num) (by decide),
      formatBytesLoop_stop _ 1 (by intro h; have := h.1; norm_num at this)]
  have ht : thousandths (1025 / 1024) = 1001 := by
    have ha : abs ((1025 / 1024 : ℚ)) = 1025 / 1024 := abs_of_nonneg (by norm_num)
    unfold thousandths
    rw [ha, roundHalfEven_eq _ 1001 (by norm_num [abs_lt])]
    rfl
  have hr : reportedValue (1025 / 1024) = 1001 / 1000 := by
    unfold reportedValue
    rw [ht]
    norm_num
  refine ⟨hloop, ?_, hr, ?_⟩
  · have hu : units.get? 1 = some "KiB" := rfl
    have hneg : ¬ ((1025 : ℚ) / 1024 < 0) := by norm_num
    simp only [formatBytes, hloop, hu, formatFixed3, ht, if_neg hneg]
    exact congrArg Except.ok (by decide)
  · rw [hr]
    norm_num

/-- C11, as amended. Byte-size unit selection: for every byte count `b` with
`0 ≤ b ≤ 1024^4`, `formatBytes b` is the value `b / 1024^k` printed with three decimals,
a blank and the `k`-th unit of `bytes`, `KiB`, `MiB`, `GiB`, where `k` is the number of
divisions the loop makes: `k = 0` exactly when `b ≤ 1024` (so 1024 is reported in
bytes), otherwise `k` is the only index in 1..3 with `1024^k < b ≤ 1024^(k+1)`; the
value before rounding times `1024^k` is `b`, and the reported value is within 0.0005
of it. -/
theorem unit_selection (b : ℚ) (h0 : 0 ≤ b) (h1 : b ≤ 1024 ^ 4) :
    ∃ k : Nat, ∃ unit : String,
      ((k = 0 ∧ unit = "bytes") ∨ (k = 1 ∧ unit = "KiB") ∨ (k = 2 ∧ unit = "MiB")
          ∨ (k = 3 ∧ unit = "GiB"))
        ∧ formatBytesLoop b 0 = (b / 1024 ^ k, k)
        ∧ formatBytes b = Except.ok (formatFixed3 (b / 1024 ^ k) ++ " " ++ unit)
        ∧ (k = 0 ↔ b ≤ 1024)
        ∧ (0 < k → (1024 : ℚ) ^ k < b ∧ b ≤ 1024 ^ (k + 1))
        ∧ (∀ j : Nat, 1 ≤ j → j ≤ 3 → (1024 : ℚ) ^ j < b → b ≤ 1024 ^ (j + 1) → j = k)
        ∧ b / 1024 ^ k * 1024 ^ k = b
        ∧ abs (reportedValue (b / 1024 ^ k) - b / 1024 ^ k) ≤ 1 / 2000 := by
  obtain ⟨k, hk, hloop, hzero, hpos⟩ := formatBytesLoop_upto b h1
  have hunit : ∃ unit, units.get? k = some unit
      ∧ ((k = 0 ∧ unit = "bytes") ∨ (k = 1 ∧ unit = "KiB") ∨ (k = 2 ∧ unit = "MiB")
          ∨ (k = 3 ∧ unit = "GiB")) := by
    interval_cases k
    · exact ⟨"bytes", rfl, Or.inl ⟨rfl, rfl⟩⟩
    · exact ⟨"KiB", rfl, Or.inr (Or.inl ⟨rfl, rfl⟩)⟩
    · exact ⟨"MiB", rfl, Or.inr (Or.inr (Or.inl ⟨rfl, rfl⟩))⟩
    · exact ⟨"GiB", rfl, Or.inr (Or.inr (Or.inr ⟨rfl, rfl⟩))⟩
  obtain ⟨unit, hu, hname⟩ := hunit
  refine ⟨k, unit, hname, hloop, ?_, hzero, hpos, ?_, ?_, ?_⟩
  · simp only [formatBytes, hloop, hu]
  · intro j hj1 hj3 hlo hhi
    have hb : (1024 : ℚ) < b := by
      have : (1024 : ℚ) ^ 1 ≤ 1024 ^ j := pow_le_pow_right₀ (by norm_num) hj1
      linarith
    have hk0 : 0 < k := by
      rcases Nat.eq_zero_or_pos k with h | h
      · exact absurd (hzero.mp h) (not_le.mpr hb)
      · exact h
    obtain ⟨klo, khi⟩ := hpos hk0
    have a1 : (1024 : ℚ) ^ j < 1024 ^ (k + 1) := lt_of_lt_of_le hlo khi
    have a2 : (1024 : ℚ) ^ k < 1024 ^ (j + 1) := lt_of_lt_of_le klo hhi
    have b1 := (pow_lt_pow_iff_right₀ (by norm_num : (1 : ℚ) < 1024)).mp a1
    have b2 := (pow_lt_pow_iff_right₀ (by norm_num : (1 : ℚ) < 1024)).mp a2
    omega
  · field_simp
  · exact reportedValue_near _ (div_nonneg h0 (by positivity))

/-- Witness of C11 as amended: two KiB and a half are printed as `2.500 KiB`. -/
theorem unit_selection_witness :
    (0 : ℚ) ≤ 2560 ∧ (2560 : ℚ) ≤ 1024 ^ 4
      ∧ ∃ k : Nat, ∃ unit : String,
        ((k = 0 ∧ unit = "bytes") ∨ (k = 1 ∧ unit = "KiB") ∨ (k = 2 ∧ unit = "MiB")
            ∨ (k = 3 ∧ unit = "GiB"))
          ∧ formatBytesLoop 2560 0 = ((2560 : ℚ) / 1024 ^ k, k)
          ∧ formatBytes 2560 = Except.ok (formatFixed3 ((2560 : ℚ) / 1024 ^ k) ++ " " ++ unit)
          ∧ (k = 0 ↔ (2560 : ℚ) ≤ 1024)
          ∧ (0 < k → (1024 : ℚ) ^ k < 2560 ∧ (2560 : ℚ) ≤ 1024 ^ (k + 1))
          ∧ (∀ j : Nat, 1 ≤ j → j ≤ 3 → (1024 : ℚ) ^ j < 2560 →
              (2560 : ℚ) ≤ 1024 ^ (j + 1) → j = k)
          ∧ (2560 : ℚ) / 1024 ^ k * 1024 ^ k = 2560
          ∧ abs (reportedValue ((2560 : ℚ) / 1024 ^ k) - (2560 : ℚ) / 1024 ^ k) ≤ 1 / 2000 :=
  ⟨by norm_num, by norm_num, unit_selection 2560 (by norm_num) (by norm_num)⟩

/-- The string printed for two KiB and a half, and for 1024 bytes. -/
theorem formatBytes_examples :
    formatBytes 2560 = Except.ok "2.500 KiB" ∧ formatBytes 1024 = Except.ok "1024.000 bytes" := by
  have l1 : formatBytesLoop 2560 0 = (5 / 2, 1) := by
    rw [formatBytesLoop_step _ 0 (by norm_num) (by decide),
      formatBytesLoop_stop _ 1 (by intro h; have := h.1; norm_num at this)]
    norm_num
  have l2 : formatBytesLoop 1024 0 = (1024, 0) :=
    formatBytesLoop_stop _ 0 (by intro h; have := h.1; norm_num at this)
  have t1 : thousandths (5 / 2) = 2500 := by
    have ha : abs ((5 / 2 : ℚ)) = 5 / 2 := abs_of_nonneg (by norm_num)
    unfold thousandths
    rw [ha, roundHalfEven_eq _ 2500 (by norm_num [abs_lt])]
    rfl
  have t2 : thousandths 1024 = 1024000 := by
    have ha : abs ((1024 : ℚ)) = 1024 := abs_of_nonneg (by norm_num)
    unfold thousandths
    rw [ha, roundHalfEven_eq _ 1024000 (by norm_num [abs_lt])]
    rfl
  have u1 : units.get? 1 = some "KiB" := rfl
  have u0 : units.get? 0 = some "bytes" := rfl
  have n1 : ¬ ((5 : ℚ) / 2 < 0) := by norm_num
  have n2 : ¬ ((1024 : ℚ) < 0) := by norm_num
  constructor
  · simp only [formatBytes, l1, u1, formatFixed3, t1, if_neg n1]
    exact congrArg Except.ok (by decide)
  · simp only [formatBytes, l2, u0, formatFixed3, t2, if_neg n2]
    exact congrArg Except.ok (by decide)

/-- C12. The byte count `2^41` (two TiB): the loop divides four times and is left with
the value 2 and the index 4, which is not an index of the four-element table `units`,
so the index expression `units[logBase1024]` panics instead of returning a string. -/
theorem formatBytes_index_out_of_range :
    formatBytesLoop (2 ^ 41) 0 = (2, 4)
      ∧ units.get? 4 = none
      ∧ formatBytes (2 ^ 41) = Except.error "index out of range" := by
  have hloop : formatBytesLoop (2 ^ 41) 0 = (2, 4) := by
    rw [formatBytesLoop_step _ 0 (by norm_num) (by decide),
      formatBytesLoop_step _ 1 (by norm_num) (by decide),
      formatBytesLoop_step _ 2 (by norm_num) (by decide),
      formatBytesLoop_step _ 3 (by norm_num) (by decide),
      formatBytesLoop_stop _ 4 (by intro h; exact absurd h.2 (by decide))]
    norm_num
  refine ⟨hloop, rfl, ?_⟩
  simp only [formatBytes, hloop]
  rfl

/-! ## `MustRunCommand` -/

/-- C13. `MustRunCommand` escalates exactly the errors of `RunCommand`: for every
shell, command, argument list and option pair it panics if and only if `RunCommand`
with the same arguments returns an error, the panic value naming the command and that
error, and it returns normally otherwise; the calls it makes on the remote side and the
world it leaves are those of that `RunCommand` call, nothing more. -/
theorem mustRunCommand_escalates {σ : Type} (R : Remote σ) (w : σ) (shell : Option ShellId)
    (command : String) (args : List String)
    (winrsConsoleModeStdin winrsSkipCmdShell : Bool) :
    ((MustRunCommand R w shell command args winrsConsoleModeStdin winrsSkipCmdShell).panic.isSome
        = (RunCommand R w shell command args winrsConsoleModeStdin winrsSkipCmdShell).err.isSome)
      ∧ ((MustRunCommand R w shell command args winrsConsoleModeStdin winrsSkipCmdShell).panic
          = (RunCommand R w shell command args winrsConsoleModeStdin winrsSkipCmdShell).err.map
              (fun err => "error while running command "
                ++ formatStrings ([command] ++ args) ++ ": " ++ err))
      ∧ (MustRunCommand R w shell command args winrsConsoleModeStdin winrsSkipCmdShell).trace
          = (RunCommand R w shell command args winrsConsoleModeStdin winrsSkipCmdShell).trace
      ∧ (MustRunCommand R w shell command args winrsConsoleModeStdin winrsSkipCmdShell).world
          = (RunCommand R w shell command args winrsConsoleModeStdin winrsSkipCmdShell).world := by
  unfold MustRunCommand
  cases h : (RunCommand R w shell command args winrsConsoleModeStdin winrsSkipCmdShell).err <;>
    simp [h]

/-! ## The end of the demo -/

theorem closeAllFrom_trace {σ : Type} (R : Remote σ) (i : Nat)
    (shells : List (Option ShellId)) (w : σ) :
    (closeAllFrom R i shells w).1
      = (shells.enumFrom i).map (fun p => Event.close p.1 p.2) := by
  induction shells generalizing i w with
  | nil => rfl
  | cons shell rest ih =>
    simp only [closeAllFrom, List.enumFrom_cons, List.map_cons]
    rw [ih]

/-- When the statements after the `defer` do not end in `os.Exit`, the run ends with
the deferred function: the calls of the body, then `Close` on every slot of the pool. -/
theorem demoFromPool_runs_deferred {σ : Type} (R : Remote σ) (C : CopierOps σ) (w : σ)
    (shells : List (Option ShellId))
    (h : ∀ code, (demoBody R C w shells).ending ≠ Ending.exited code) :
    (demoFromPool R C w shells).trace
      = (demoBody R C w shells).trace
          ++ (shells.enum).map (fun p => Event.close p.1 p.2) := by
  unfold demoFromPool
  cases hb : (demoBody R C w shells).ending with
  | exited code => exact absurd hb (h code)
  | returned => simp [closeAll, closeAllFrom_trace, List.enum]
  | panicked v => simp [closeAll, closeAllFrom_trace, List.enum]

/-- C14. A pool of two created shells on a remote side where every call succeeds:
when `NewFileTreeCopier` returns an error, and likewise when `copier.Run` returns an
error, the run ends in `os.Exit(1)` through `log.Fatalf` and no `Close` call is made on
any shell; with a copier that succeeds the same run closes both shells. -/
theorem fatal_exit_skips_close :
    (demoFromPool okRemote failingNewCopier 2 [some 0, some 1]).ending = Ending.exited 1
      ∧ (demoFromPool okRemote failingNewCopier 2 [some 0, some 1]).trace.filter Event.isClose
          = []
      ∧ (demoFromPool okRemote failingRunCopier 2 [some 0, some 1]).ending = Ending.exited 1
      ∧ (demoFromPool okRemote failingRunCopier 2 [some 0, some 1]).trace.filter Event.isClose
          = []
      ∧ (demoFromPool okRemote okCopier 2 [some 0, some 1]).ending = Ending.returned
      ∧ (demoFromPool okRemote okCopier 2 [some 0, some 1]).trace.filter Event.isClose
          = [Event.close 0 (some 0), Event.close 1 (some 1)] := by
  refine ⟨rfl, rfl, rfl, rfl, rfl, rfl⟩

theorem closeAllFrom_world {σ : Type} (R : Remote σ) (i : Nat)
    (shells : List (Option ShellId)) (w : σ) :
    (closeAllFrom R i shells w).2 = shells.foldl (fun w1 shell => (R.close w1 shell).2) w := by
  induction shells generalizing i w with
  | nil => rfl
  | cons shell rest ih =>
    simp only [closeAllFrom, List.foldl_cons]
    rw [ih]

/-- C15. Close-all is best effort: on a fully created pool the deferred function of
`main` calls `Close` exactly once on every shell of the pool, in pool order, whatever
each `Close` call returns and however it changes the world; an error of one call does
not keep the later shells from being closed. The world it leaves is the one obtained by
applying every one of these `Close` calls in turn, each to the world left by the call
before it. -/
theorem close_all_best_effort {σ : Type} (R : Remote σ) (w : σ) (ids : List ShellId) :
    (closeAll R (ids.map some) w).1 = ids.enum.map (fun p => Event.close p.1 (some p.2))
      ∧ (closeAll R (ids.map some) w).1.length = ids.length
      ∧ (∀ i : Nat, ∀ id : ShellId, ids.get? i = some id →
          (closeAll R (ids.map some) w).1.get? i = some (Event.close i (some id)))
      ∧ (closeAll R (ids.map some) w).2
          = ids.foldl (fun w1 id => (R.close w1 (some id)).2) w := by
  have htrace : (closeAll R (ids.map some) w).1
      = ids.enum.map (fun p => Event.close p.1 (some p.2)) := by
    unfold closeAll
    rw [closeAllFrom_trace]
    simp [List.enum, List.enumFrom_map, List.map_map, Function.comp_def]
  refine ⟨htrace, by simp [htrace], ?_, ?_⟩
  · intro i id hi
    rw [htrace]
    simp [List.enum, List.get?_eq_getElem?, List.getElem?_map, List.getElem?_enumFrom] at hi ⊢
    simp [hi]
  · unfold closeAll
    rw [closeAllFrom_world, List.foldl_map]

/-- A pool of three shells on a remote side where the world counts the `Close` calls
and every `Close` returns an error: all three shells are closed, in pool order. -/
theorem close_all_with_errors :
    (closeAll countingCloseRemote [some 4, some 5, some 6] 0).1
        = [Event.close 0 (some 4), Event.close 1 (some 5), Event.close 2 (some 6)]
      ∧ (closeAll countingCloseRemote [some 4, some 5, some 6] 0).2 = 3 := by
  decide

/-! ## The parallelism floor -/

theorem createStep_length {σ : Type} (R : Remote σ) (st : PoolState σ) (i : Nat) :
    (createStep R st i).shells.length = st.shells.length := by
  unfold createStep
  rcases h : R.createShell st.world with ⟨res, w1⟩
  cases res with
  | ok sh => simp
  | error err => simp [closeCreated_shells]

theorem foldl_createStep_length {σ : Type} (R : Remote σ) (l : List Nat) (st : PoolState σ) :
    (l.foldl (createStep R) st).shells.length = st.shells.length := by
  induction l generalizing st with
  | nil => rfl
  | cons i t ih => rw [List.foldl_cons, ih, createStep_length]

/-- The slice `shells` keeps the length it was made with. -/
theorem createPool_length {σ : Type} (R : Remote σ) (w : σ) (shellCount : Nat) :
    (createPool R w shellCount).shells.length = shellCount := by
  unfold createPool
  rw [foldl_createStep_length]
  simp

/-- What `ParseInt` returns with an error: 0 with a syntax error, the largest or the
smallest `int` with a range error. -/
theorem ParseInt_error (s : List Char) :
    ((ParseInt s).2 = some NumErr.errSyntax → (ParseInt s).1 = 0)
      ∧ ((ParseInt s).2 = some NumErr.errRange →
          (ParseInt s).1 = 2 ^ 63 - 1 ∨ (ParseInt s).1 = -(2 ^ 63)) := by
  cases s with
  | nil => exact ⟨fun _ => rfl, fun h => by cases h⟩
  | cons c t =>
    simp only [ParseInt]
    rcases ParseUint (if c = '+' ∨ c = '-' then t else c :: t) with ⟨un, err⟩
    simp only
    by_cases c0 : err = some NumErr.errSyntax
    · rw [if_pos c0]
      exact ⟨fun _ => rfl, fun h => by cases h⟩
    · rw [if_neg c0]
      by_cases c1 : decide (c = '-') = false ∧ un ≥ 2 ^ (intSize - 1)
      · rw [if_pos c1]
        constructor
        · intro h
          simp at h
        · intro _
          left
          simp [intSize]
      · rw [if_neg c1]
        by_cases c2 : decide (c = '-') = true ∧ un > 2 ^ (intSize - 1)
        · rw [if_pos c2]
          constructor
          · intro h
            simp at h
          · intro _
            right
            simp [intSize]
        · rw [if_neg c2]
          constructor
          · intro h
            simp at h
          · intro h
            simp at h

/-- What `Atoi` returns with an error. -/
theorem Atoi_error (s : String) (e : NumError) (h : (Atoi s).2 = some e) :
    (e.Err = NumErr.errSyntax → (Atoi s).1 = 0)
      ∧ (e.Err = NumErr.errRange → (Atoi s).1 = 2 ^ 63 - 1 ∨ (Atoi s).1 = -(2 ^ 63)) := by
  unfold Atoi at h ⊢
  rcases hp : ParseInt s.data with ⟨i64, err⟩
  rw [hp] at h
  simp only at h ⊢
  have hpe := ParseInt_error s.data
  rw [hp] at hpe
  simp only at hpe
  cases err with
  | none => cases h
  | some k =>
    simp only [Option.map_some', Option.some.injEq] at h
    subst h
    simp only
    constructor
    · intro hk
      exact hpe.1 (by rw [hk])
    · intro hk
      exact hpe.2 (by rw [hk])

/-- The creation loop calls `CreateShell` once for every index. -/
theorem closeCreated_count {σ : Type} (R : Remote σ) (j : Nat) (st : PoolState σ) :
    (closeCreated R j st).trace.count Event.createShell
      = st.trace.count Event.createShell := by
  rw [closeCreated_trace, List.count_append]
  have hz : ((List.range j).reverse.map
      (fun k => Event.close (k + 1) (st.shells.getD (k + 1) none))).count Event.createShell
      = 0 := by
    rw [List.count_eq_zero]
    intro hm
    obtain ⟨k, _, hk⟩ := List.mem_map.mp hm
    cases hk
  rw [hz]
  rfl

theorem createStep_count {σ : Type} (R : Remote σ) (st : PoolState σ) (i : Nat) :
    (createStep R st i).trace.count Event.createShell
      = st.trace.count Event.createShell + 1 := by
  unfold createStep
  rcases h : R.createShell st.world with ⟨res, w1⟩
  cases res with
  | ok sh => simp [List.count_append]
  | error err => simp [closeCreated_count, List.count_append]

theorem foldl_createStep_count {σ : Type} (R : Remote σ) (l : List Nat) (st : PoolState σ) :
    (l.foldl (createStep R) st).trace.count Event.createShell
      = st.trace.count Event.createShell + l.length := by
  induction l generalizing st with
  | nil => rfl
  | cons i t ih =>
    rw [List.foldl_cons, ih, createStep_count, List.length_cons]
    omega

theorem createPool_count {σ : Type} (R : Remote σ) (w : σ) (shellCount : Nat) :
    (createPool R w shellCount).trace.count Event.createShell = shellCount := by
  unfold createPool
  rw [foldl_createStep_count]
  simp

/-- When `make` accepts the length, the pool is the one the creation loop builds. -/
theorem buildPool_ok {σ : Type} (R : Remote σ) (w : σ) (parallelismFlag : String)
    (h0 : 0 ≤ shellCountOf parallelismFlag)
    (h : (shellCountOf parallelismFlag).toNat * pointerSize ≤ maxAlloc) :
    buildPool R w parallelismFlag
      = Except.ok (createPool R w (shellCountOf parallelismFlag).toNat) := by
  have hc : ¬ (shellCountOf parallelismFlag < 0
      ∨ (shellCountOf parallelismFlag).toNat * pointerSize > maxAlloc) := by
    omega
  simp only [buildPool, makeShells, if_neg hc]
  rfl

theorem buildPool_panics {σ : Type} (R : Remote σ) (w : σ) (parallelismFlag : String)
    (h : maxAlloc < (shellCountOf parallelismFlag).toNat * pointerSize) :
    buildPool R w parallelismFlag
      = Except.error "runtime error: makeslice: len out of range" := by
  have hc : shellCountOf parallelismFlag < 0
      ∨ (shellCountOf parallelismFlag).toNat * pointerSize > maxAlloc := Or.inr h
  simp only [buildPool, makeShells, if_pos hc]

/-- C16, the counterexample. The flag `9223372036854775808` does not parse as an
`int`: `Atoi` returns a range error with the largest `int`; the shell count is that
value, not 1, and `make` panics on it, so that no pool is made and no shell created. -/
theorem parallelism_out_of_range :
    Atoi "9223372036854775808"
        = (9223372036854775807,
            some { Func := "Atoi", Num := "9223372036854775808", Err := NumErr.errRange })
      ∧ shellCountOf "9223372036854775808" = 9223372036854775807
      ∧ shellCountOf "9223372036854775808" ≠ 1
      ∧ buildPool okRemote 0 "9223372036854775808"
          = Except.error "runtime error: makeslice: len out of range" := by
  have hc : shellCountOf "9223372036854775808" = 9223372036854775807 := by decide
  refine ⟨by decide, hc, by decide, ?_⟩
  apply buildPool_panics
  rw [hc]
  decide

/-- C16, as amended. Parallelism floor: for every value of the parallelism flag the
shell count is `max 1 v`, where `v` is what `strconv.Atoi` returns for the value: it is
`max 1 n` when the value parses as the integer `n`, it is 1 when the value is a syntax
error, and it is the largest `int` or 1 when the value is outside the range of `int`;
it is always at least 1. When `make` accepts that length, the demo calls `CreateShell`
that many times, the pool slice has that many slots, so it is never empty and its
index 0, used for the control commands, exists; when `make` does not accept it, the
demo panics before any shell is created. -/
theorem parallelism_floor {σ : Type} (R : Remote σ) (w : σ) (parallelismFlag : String) :
    shellCountOf parallelismFlag = max 1 (Atoi parallelismFlag).1
      ∧ (∀ n : Int, Atoi parallelismFlag = (n, none) → shellCountOf parallelismFlag = max 1 n)
      ∧ (∀ e : NumError, (Atoi parallelismFlag).2 = some e → e.Err = NumErr.errSyntax →
          shellCountOf parallelismFlag = 1)
      ∧ (∀ e : NumError, (Atoi parallelismFlag).2 = some e → e.Err = NumErr.errRange →
          shellCountOf parallelismFlag = 2 ^ 63 - 1 ∨ shellCountOf parallelismFlag = 1)
      ∧ 1 ≤ shellCountOf parallelismFlag
      ∧ ((shellCountOf parallelismFlag).toNat * pointerSize ≤ maxAlloc →
          ∃ pool : PoolState σ, buildPool R w parallelismFlag = Except.ok pool
            ∧ pool.trace.count Event.createShell = (shellCountOf parallelismFlag).toNat
            ∧ pool.shells.length = (shellCountOf parallelismFlag).toNat
            ∧ 0 < pool.shells.length)
      ∧ (maxAlloc < (shellCountOf parallelismFlag).toNat * pointerSize →
          buildPool R w parallelismFlag
            = Except.error "runtime error: makeslice: len out of range") := by
  have hmax : shellCountOf parallelismFlag = max 1 (Atoi parallelismFlag).1 := by
    unfold shellCountOf
    by_cases c : (Atoi parallelismFlag).1 < 1
    · simp only [c, if_true]
      omega
    · simp only [c, if_false]
      omega
  have hone : 1 ≤ shellCountOf parallelismFlag := by rw [hmax]; omega
  refine ⟨hmax, ?_, ?_, ?_, hone, ?_, buildPool_panics R w parallelismFlag⟩
  · intro n hn
    rw [hmax, hn]
  · intro e he hs
    rw [hmax, (Atoi_error parallelismFlag e he).1 hs]
    rfl
  · intro e he hr
    rcases (Atoi_error parallelismFlag e he).2 hr with h1 | h1
    · left; rw [hmax, h1]; omega
    · right; rw [hmax, h1]; omega
  · intro hfit
    refine ⟨_, buildPool_ok R w parallelismFlag (by omega) hfit, createPool_count R w _,
      createPool_length R w _, ?_⟩
    rw [createPool_length]
    omega

/-- Witness of C16 as amended: the flag `x` is a syntax error and gives a pool of one
shell; the flag `3` gives three shells. -/
theorem parallelism_floor_witness :
    (Atoi "x").2 = some { Func := "Atoi", Num := "x", Err := NumErr.errSyntax }
      ∧ shellCountOf "x" = 1
      ∧ Atoi "3" = (3, none) ∧ shellCountOf "3" = max 1 3
      ∧ (shellCountOf "3").toNat * pointerSize ≤ maxAlloc
      ∧ ∃ pool : PoolState Nat, buildPool okRemote 0 "3" = Except.ok pool
          ∧ pool.trace.count Event.createShell = (shellCountOf "3").toNat
          ∧ pool.shells.length = (shellCountOf "3").toNat
          ∧ 0 < pool.shells.length :=
  ⟨by decide, (parallelism_floor okRemote 0 "x").2.2.1
      { Func := "Atoi", Num := "x", Err := NumErr.errSyntax } (by decide) rfl,
    by decide, (parallelism_floor okRemote 0 "3").2.1 3 (by decide),
    by decide, (parallelism_floor okRemote 0 "3").2.2.2.2.2.1 (by decide)⟩

/-! ## Sizes -/

theorem utf16LEBytes_cons (c : Nat) (t : List Nat) :
    utf16LEBytes (c :: t)
      = (utf16UnitsOf c).flatMap (fun u => [u % 256, u / 256]) ++ utf16LEBytes t := by
  simp [utf16LEBytes, List.flatMap_cons, List.flatMap_append]

theorem utf16UnitsOf_bytes_length (c : Nat) :
    ((utf16UnitsOf c).flatMap (fun u => [u % 256, u / 256])).length
      = if c < 0x10000 then 2 else 4 := by
  by_cases h : c < 0x10000
  · rw [utf16UnitsOf, if_pos h, if_pos h]; rfl
  · rw [utf16UnitsOf, if_neg h, if_neg h]; rfl

theorem utf16LEBytes_length (script : List Nat) :
    (utf16LEBytes script).length
      = 2 * script.countP (fun c => decide (c < 0x10000))
        + 4 * script.countP (fun c => decide (0x10000 ≤ c)) := by
  induction script with
  | nil => rfl
  | cons c t ih =>
    rw [utf16LEBytes_cons, List.length_append, utf16UnitsOf_bytes_length, ih,
      List.countP_cons, List.countP_cons]
    by_cases h : c < 0x10000
    · have h2 : ¬ 0x10000 ≤ c := by omega
      simp only [h, h2, if_true, decide_True, decide_False]
      simp only [Bool.false_eq_true, if_false]
      omega
    · have h2 : 0x10000 ≤ c := by omega
      simp only [h, h2, if_false, decide_True, decide_False, if_true]
      simp only [Bool.false_eq_true, if_false]
      omega

theorem base64StdEncode_length (bytes : List Nat) :
    (base64StdEncode bytes).length = 4 * ((bytes.length + 2) / 3) := by
  induction bytes using base64StdEncode.induct with
  | case1 => rfl
  | case2 a => simp [base64StdEncode]
  | case3 a b => simp [base64StdEncode]
  | case4 a b c rest ih =>
    simp only [base64StdEncode, List.length_cons, ih]
    omega

/-- C17. Encoded payload size: for every script of Unicode scalar values with `b`
characters up to U+FFFF and `s` characters above, the UTF-16LE payload the loop builds
has exactly `2*b + 4*s` bytes, an even number, and the base64 element of the result has
exactly `4 * ceil((2*b + 4*s) / 3)` characters, the ceiling being
`(2*b + 4*s + 2) / 3` in natural division; an ASCII script of `n` characters yields
`4 * ceil(2*n / 3)` characters. -/
theorem encoded_payload_size (script : List Nat) (h : ∀ c ∈ script, isScalarValue c) :
    ∃ payload : List Nat, ∃ commandLine : List String, ∃ encoded : String,
      encodeLoop script = Except.ok payload
        ∧ payload.length
            = 2 * script.countP (fun c => decide (c < 0x10000))
              + 4 * script.countP (fun c => decide (0x10000 ≤ c))
        ∧ payload.length % 2 = 0
        ∧ FormatPowerShellScriptCommandLine script = Except.ok commandLine
        ∧ commandLine.getLast? = some encoded
        ∧ encoded.length = 4 * ((payload.length + 2) / 3)
        ∧ payload.length ≤ 3 * ((payload.length + 2) / 3)
        ∧ 3 * ((payload.length + 2) / 3) < payload.length + 3
        ∧ ((∀ c ∈ script, c < 128) →
            encoded.length = 4 * ((2 * script.length + 2) / 3)) := by
  have hle : ∀ c ∈ script, c ≤ maxRune := fun c hc => scalar_le_maxRune c (h c hc)
  have hlen := utf16LEBytes_length script
  refine ⟨utf16LEBytes script, _, String.mk (base64StdEncode (utf16LEBytes script)),
    encodeLoop_ok script hle, hlen, by omega, format_ok script hle, rfl, ?_, by omega,
    by omega, ?_⟩
  · show (base64StdEncode (utf16LEBytes script)).length = _
    rw [base64StdEncode_length]
  · intro hascii
    show (base64StdEncode (utf16LEBytes script)).length = _
    rw [base64StdEncode_length, hlen]
    have hb : script.countP (fun c => decide (c < 0x10000)) = script.length := by
      rw [List.countP_eq_length]
      intro c hc
      have := hascii c hc
      simp only [decide_eq_true_eq]
      omega
    have hs : script.countP (fun c => decide (0x10000 ≤ c)) = 0 := by
      rw [List.countP_eq_zero]
      intro c hc
      have := hascii c hc
      simp only [decide_eq_true_eq]
      omega
    rw [hb, hs]

/-- Witness of C17 on the script `A`, U+1F600: 2 + 4 bytes and 8 characters. -/
theorem encoded_payload_size_witness :
    (∀ c ∈ [65, 0x1F600], isScalarValue c)
      ∧ ∃ payload : List Nat, ∃ commandLine : List String, ∃ encoded : String,
        encodeLoop [65, 0x1F600] = Except.ok payload
          ∧ payload.length
              = 2 * [65, 0x1F600].countP (fun c => decide (c < 0x10000))
                + 4 * [65, 0x1F600].countP (fun c => decide (0x10000 ≤ c))
          ∧ payload.length % 2 = 0
          ∧ FormatPowerShellScriptCommandLine [65, 0x1F600] = Except.ok commandLine
          ∧ commandLine.getLast? = some encoded
          ∧ encoded.length = 4 * ((payload.length + 2) / 3)
          ∧ payload.length ≤ 3 * ((payload.length + 2) / 3)
          ∧ 3 * ((payload.length + 2) / 3) < payload.length + 3
          ∧ ((∀ c ∈ [65, 0x1F600], c < 128) →
              encoded.length = 4 * ((2 * [65, 0x1F600].length + 2) / 3)) :=
  ⟨by decide, encoded_payload_size [65, 0x1F600] (by decide)⟩

theorem escapeOf_eq_none_iff (r : Char) : escapeOf r = none ↔ r ∉ escapedSet := by
  constructor
  · intro h
    obtain ⟨h1, h2, h3, h4⟩ := escapeOf_none_not_special r h
    simp only [escapedSet, List.mem_append, List.mem_cons, List.mem_singleton,
      List.not_mem_nil, or_false, not_or]
    exact ⟨h4, h3, h2, h1⟩
  · intro h
    simp only [escapedSet, escapedControls, List.mem_append, List.mem_cons,
      List.mem_singleton, List.not_mem_nil, or_false, not_or] at h
    obtain ⟨⟨a1, a2, a3, a4, a5, a6, a7, a8⟩, a9, a10, a11⟩ := h
    unfold escapeOf
    rw [if_neg a1, if_neg a2, if_neg a3, if_neg a4, if_neg a5, if_neg a6, if_neg a7,
      if_neg a9, if_neg a10, if_neg a11, if_neg a8]

theorem writtenFor_length (r : Char) :
    (writtenFor r).length = if r ∈ escapedSet then 2 else 1 := by
  unfold writtenFor
  cases h : escapeOf r with
  | none =>
    have := (escapeOf_eq_none_iff r).mp h
    simp [this]
  | some e =>
    have hin : r ∈ escapedSet := by
      by_contra hn
      rw [(escapeOf_eq_none_iff r).mpr hn] at h
      cases h
    obtain ⟨d, he, _⟩ := escapeOf_some r e h
    simp [hin, he]

theorem flatMap_writtenFor_length (l : List Char) :
    (l.flatMap writtenFor).length
      = l.length + l.countP (fun r => decide (r ∈ escapedSet)) := by
  induction l with
  | nil => rfl
  | cons r t ih =>
    rw [List.flatMap_cons, List.length_append, ih, writtenFor_length, List.countP_cons,
      List.length_cons]
    by_cases h : r ∈ escapedSet
    · simp only [h, if_true, decide_True]
      omega
    · simp only [h, if_false, decide_False, Bool.false_eq_true]
      omega

theorem flatMap_writtenFor_plain (l : List Char) (h : ∀ r ∈ l, r ∉ escapedSet) :
    l.flatMap writtenFor = l := by
  induction l with
  | nil => rfl
  | cons r t ih =>
    rw [List.flatMap_cons, ih (fun x hx => h x (List.mem_cons_of_mem r hx))]
    have hr := (escapeOf_eq_none_iff r).mpr (h r (List.mem_cons_self r t))
    simp [writtenFor, hr]

/-- C18. Quoted literal size: for every string `v` of `n` characters the literal has
exactly `n + 2 + e` characters, where `e` counts the characters of `v` in the escaped
set; hence its length is between `n + 2` and `2*n + 2`, and when `v` has no character of
the escaped set the literal is exactly `v` between two single quotes. -/
theorem quoted_literal_size (v : String) :
    (PowerShellSingleQuotedStringLiteral v).length
        = v.length + 2 + v.data.countP (fun r => decide (r ∈ escapedSet))
      ∧ v.length + 2 ≤ (PowerShellSingleQuotedStringLiteral v).length
      ∧ (PowerShellSingleQuotedStringLiteral v).length ≤ 2 * v.length + 2
      ∧ ((∀ r ∈ v.data, r ∉ escapedSet) →
          PowerShellSingleQuotedStringLiteral v
            = String.mk (singleQuote :: (v.data ++ [singleQuote]))) := by
  have hlen : (PowerShellSingleQuotedStringLiteral v).length
      = v.length + 2 + v.data.countP (fun r => decide (r ∈ escapedSet)) := by
    show (PowerShellSingleQuotedStringLiteral v).data.length = v.data.length + 2 + _
    rw [literal_data, List.length_cons, List.length_append, flatMap_writtenFor_length]
    simp only [List.length_singleton]
    omega
  have hcount : v.data.countP (fun r => decide (r ∈ escapedSet)) ≤ v.length :=
    List.countP_le_length _
  refine ⟨hlen, by omega, by omega, ?_⟩
  intro hplain
  apply String.ext
  rw [literal_data, flatMap_writtenFor_plain v.data hplain]

/-- Witness of C18: `dir` has no character of the escaped set. -/
theorem quoted_literal_size_witness :
    (∀ r ∈ "dir".data, r ∉ escapedSet)
      ∧ PowerShellSingleQuotedStringLiteral "dir"
          = String.mk (singleQuote :: ("dir".data ++ [singleQuote])) :=
  ⟨by decide, (quoted_literal_size "dir").2.2.2 (by decide)⟩

/-! ## `FormatURL` -/

/-- C19. `FormatURL` shape: for every `useTLS`, host and port the result is the scheme,
`://`, the host, `:`, the decimal rendering of the port and `/wsman`, where the scheme
is `https` when `useTLS` is set and `http` otherwise; host and port are embedded as
they are. -/
theorem formatURL_shape (useTLS : Bool) (host : String) (port : Int) :
    FormatURL useTLS host port
      = (if useTLS then "https" else "http") ++ "://" ++ host ++ ":" ++ formatDecimal port
          ++ "/wsman" := by
  have hf : "%s://%s:%d/wsman".data
      = ['%', 's', ':', '/', '/', '%', 's', ':', '%', 'd', '/', 'w', 's', 'm', 'a', 'n'] := rfl
  apply String.ext
  cases useTLS
  · simp only [FormatURL, Sprintf, hf, sprintfChars, String.data_append]
    simp
  · simp only [FormatURL, Sprintf, hf, sprintfChars, String.data_append]
    simp

/-- The endpoint of the demo: TLS on the default port. -/
theorem formatURL_example :
    FormatURL true "example.org" 5986 = "https://example.org:5986/wsman"
      ∧ FormatURL false "example.org" 5985 = "http://example.org:5985/wsman" := by
  decide

end Winrm
